import Mathlib

/-! # CUPSer: log collection and CSV / JSON serialisation

A shallow embedding of `src/parser.cpp` (and the pieces of the C++ standard
library it calls) together with theorems about date extraction, escaping and
the two output formats.

Conventions of the embedding:

* a `std::string` is a `List Char` (`Str`); one `Char` stands for one byte;
* `std::string::npos` is the largest `size_t`, and a search that returns
  `npos` is `none`;
* `size_t` arithmetic is carried out modulo `2 ^ 64`;
* an operation with undefined behaviour or a thrown exception (`operator[]`
  past the end, `substr` with a start past the end) is `none`.
-/

namespace CUPSer

/-- A `std::string`: the sequence of its bytes. -/
abbrev Str := List Char

/-- Width of `size_t` arithmetic. -/
def SIZE_WIDTH : Nat := 2 ^ 64

/-- The value of `std::string::npos`, the largest `size_t`. -/
def npos : Nat := SIZE_WIDTH - 1

/-- The `size_t` value of a search result: `npos` when nothing was found. -/
def size_t_of (r : Option Nat) : Nat := r.getD npos

/-- Addition of two `size_t` values. -/
def size_add (a b : Nat) : Nat := (a + b) % SIZE_WIDTH

/-- Subtraction of two `size_t` values, wrapping around below zero. -/
def size_sub (a b : Nat) : Nat := (a + SIZE_WIDTH - b % SIZE_WIDTH) % SIZE_WIDTH

/-- Search loop of `std::string::find(char, pos)` over the characters that
remain at index `i`: the first index holding `c`. -/
def find_loop (c : Char) : Str → Nat → Option Nat
  | [], _ => none
  | x :: xs, i => if x = c then some i else find_loop c xs (i + 1)

/-- Model of `s.find(c, pos)`: index of the first `c` at or after `pos`, `none` (that
is `npos`) when there is none or when `pos` is not below `s.size()`. -/
def find (s : Str) (c : Char) (pos : Nat) : Option Nat :=
  find_loop c (s.drop pos) pos

/-- Model of `s.substr(pos, n)`: throws `std::out_of_range` (here `none`) when
`pos > s.size()`, else the at most `n` characters starting at `pos`. -/
def substr (s : Str) (pos n : Nat) : Option Str :=
  if s.length < pos then none else some ((s.drop pos).take n)

/-- The test `s[i] == c` for `operator[]`, which is only defined below `s.size()`. -/
def char_at_is (s : Str) (i : Nat) (c : Char) : Option Bool :=
  (s.get? i).map (fun x => decide (x = c))

/-- Short-circuit `&&` over checks that may be undefined: the right operand
is only looked at when the left one is `true`. -/
def and_then (a b : Option Bool) : Option Bool :=
  match a with
  | none => none
  | some false => some false
  | some true => b

/-- Model of `fs::path(p).filename().string()` for POSIX paths: the characters after
the last `/` (empty when the path ends in `/`). -/
def filename : Str → Str
  | [] => []
  | c :: cs => if '/' ∈ cs then filename cs else if c = '/' then cs else c :: cs

/-- Body of the range-for loop of `escape_csv`: append one character to
`result`, doubling a double quote. -/
def escape_csv_step (result : Str) (c : Char) : Str :=
  if c = '"' then (result ++ ['"']) ++ ['"'] else result ++ [c]

/-- Function `escape_csv` of `parser.cpp`. -/
def escape_csv (s : Str) : Str :=
  if find s '"' 0 = none ∧ find s ',' 0 = none then s
  else
    let result : Str := []
    let result := result ++ ['"']
    let result := s.foldl escape_csv_step result
    result ++ ['"']

/-- Body of the range-for loop of `escape_json`: the `switch` on one
character, writing to `out`. -/
def escape_json_step (out : Str) (c : Char) : Str :=
  if c = '"' then out ++ ['\\', '"']
  else if c = '\\' then out ++ ['\\', '\\']
  else if c = '\x08' then out ++ ['\\', 'b']
  else if c = '\x0c' then out ++ ['\\', 'f']
  else if c = '\n' then out ++ ['\\', 'n']
  else if c = '\r' then out ++ ['\\', 'r']
  else if c = '\t' then out ++ ['\\', 't']
  else out ++ [c]

/-- Function `escape_json` of `parser.cpp`. -/
def escape_json (s : Str) : Str :=
  s.foldl escape_json_step []

/-- The bracket rule shared by the `access_log` and `error_log` branches of
`extract_date`: when a bracket is missing the branch falls through to the
final `return ""`; `none` is a `substr` that throws. -/
def bracket_date (line : Str) : Option Str :=
  let start := find line '[' 0
  let end_ := find line ']' (size_t_of start)
  if size_t_of start ≠ npos ∧ size_t_of end_ ≠ npos then
    substr line (size_add (size_t_of start) 1)
      (size_sub (size_sub (size_t_of end_) (size_t_of start)) 1)
  else some []

/-- The format test of the `page_log` branch, with its short-circuit
evaluation order. -/
def page_format_ok (line : Str) : Option Bool :=
  and_then (char_at_is line 4 '-')
    (and_then (char_at_is line 7 '-')
      (and_then (char_at_is line 10 ' ')
        (and_then (char_at_is line 13 ':') (char_at_is line 16 ':'))))

/-- The `page_log` branch of `extract_date`. -/
def page_date (line : Str) : Option Str :=
  if 19 ≤ line.length then
    match page_format_ok line with
    | none => none
    | some true => substr line 0 19
    | some false => some []
  else some []

/-- Function `extract_date` of `parser.cpp`; `none` is a run that does not return a
string (undefined behaviour or an exception). -/
def extract_date (file line : Str) : Option Str :=
  let fn := filename file
  if fn = "access_log".toList then bracket_date line
  else if fn = "error_log".toList then bracket_date line
  else if fn = "page_log".toList then page_date line
  else some []

/-- One collected record, `std::tuple<std::string, std::string, std::string>`:
source path, date, content. -/
abbrev Record := Str × Str × Str

/-- Body of the range-for loop of `to_csv`: one row written to `out`. -/
def to_csv_step (out : Str) (rec_ : Record) : Str :=
  let file := escape_csv rec_.1
  let date := escape_csv rec_.2.1
  let content := escape_csv rec_.2.2
  out ++ file ++ ",".toList ++ date ++ ",".toList ++ content ++ "\n".toList

/-- Function `to_csv` of `parser.cpp`. -/
def to_csv (data : List Record) : Str :=
  let out : Str := []
  let out := out ++ "File,Date,Content\n".toList
  data.foldl to_csv_step out

/-- Body of the index loop of `to_json` for index `i`: one object written to
`out`. The loop guard keeps `i` below `data.size()`, so `data[i]` is an
element and `i + 1` cannot wrap. -/
def to_json_step (data : List Record) (out : Str) (i : Nat) : Str :=
  let rec_ := data.getD i ([], [], [])
  let file := escape_json rec_.1
  let date := escape_json rec_.2.1
  let content := escape_json rec_.2.2
  let out := out ++ "  \x7b\n".toList
  let out := out ++ "    \"file\": \"".toList ++ file ++ "\",\n".toList
  let out := out ++ "    \"date\": \"".toList ++ date ++ "\",\n".toList
  let out := out ++ "    \"content\": \"".toList ++ content ++ "\"\n".toList
  let out := out ++ "  \x7d".toList
  let out := if i + 1 < data.length then out ++ ",".toList else out
  out ++ "\n".toList

/-- Function `to_json` of `parser.cpp`. -/
def to_json (data : List Record) : Str :=
  let out : Str := []
  let out := out ++ "[\n".toList
  let out := (List.range data.length).foldl (to_json_step data) out
  out ++ "]".toList

/-- An entry met by `fs::recursive_directory_iterator`: its path, whether it
is a regular file, and the bytes `std::ifstream` reads from it (`none` when
the file cannot be opened). -/
structure DirEntry where
  path : Str
  is_regular_file : Bool
  content : Option Str

/-- The part of the file system `parse_cups_logs` looks at: `fs::exists`,
`fs::is_directory`, and the entries below a directory in the order
`fs::recursive_directory_iterator` yields them. -/
structure FileSystem where
  fs_exists : Str → Bool
  fs_is_directory : Str → Bool
  recursive_directory_iterator : Str → List DirEntry

/-- The `std::getline` loop of `read_lines` over the bytes still unread,
`line` being the characters extracted so far: a line ends at `\n`; at the
end of the input a non-empty remainder is a last line, an empty one fails
the read and ends the loop. -/
def read_lines_loop : Str → Str → List Str
  | [], line => if line = [] then [] else [line]
  | c :: cs, line =>
    if c = '\n' then line :: read_lines_loop cs [] else read_lines_loop cs (line ++ [c])

/-- Function `read_lines` of `parser.cpp`; a stream that failed to open yields no
line. -/
def read_lines (content : Option Str) : List Str :=
  match content with
  | none => []
  | some bytes => read_lines_loop bytes []

/-- Model of `fs::path::operator/` with a relative right operand on POSIX: a
separator is added when the left operand ends in a filename. -/
def path_append (p q : Str) : Str :=
  if filename p = [] then p ++ q else p ++ '/' :: q

/-- The vector `log_names` of `parse_cups_logs`. -/
def log_names : List Str :=
  ["access_log".toList, "error_log".toList, "page_log".toList]

/-- Body of the inner loop of `parse_cups_logs`: the record of one line,
appended to `records`. -/
def collect_line (path : Str) (records : Option (List Record)) (line : Str) :
    Option (List Record) :=
  match records with
  | none => none
  | some rs =>
    match extract_date path line with
    | none => none
    | some date => some (rs ++ [(path, date, line)])

/-- Body of the outer loop of `parse_cups_logs`: one directory entry. -/
def collect_entry (records : Option (List Record)) (entry : DirEntry) :
    Option (List Record) :=
  if !entry.is_regular_file then records
  else
    let fn := filename entry.path
    if fn ∈ log_names then
      let lines := read_lines entry.content
      lines.foldl (collect_line entry.path) records
    else records

/-- The collector loop of `parse_cups_logs` over the entries of the walk. -/
def collect_records (entries : List DirEntry) : Option (List Record) :=
  entries.foldl collect_entry (some [])

/-- The directory `parse_cups_logs` scans: `sysroot / "var" / "log" / "cups"`. -/
def cups_root (sysroot : Str) : Str :=
  path_append (path_append (path_append sysroot "var".toList) "log".toList) "cups".toList

/-- Function `parse_cups_logs` of `parser.cpp` over a file system; `none` is a run
that does not return a string. -/
def parse_cups_logs (fs : FileSystem) (sysroot format : Str) : Option Str :=
  if !fs.fs_exists (cups_root sysroot) || !fs.fs_is_directory (cups_root sysroot) then
    some []
  else
    match collect_records (fs.recursive_directory_iterator (cups_root sysroot)) with
    | none => none
    | some records =>
      if records = [] then some []
      else some (if format = "json".toList then to_json records else to_csv records)

/-- The spec's JSON escape of one character: the seven two-character
escapes, every other character standing for itself. -/
def spec_json_escape (c : Char) : Str :=
  if c = '"' then "\\\"".toList
  else if c = '\\' then "\\\\".toList
  else if c = '\x08' then "\\b".toList
  else if c = '\x0c' then "\\f".toList
  else if c = '\n' then "\\n".toList
  else if c = '\r' then "\\r".toList
  else if c = '\t' then "\\t".toList
  else [c]

/-- The spec's CSV row of a record: the three escaped fields separated by
commas and closed by a newline. -/
def spec_csv_row (r : Record) : Str :=
  escape_csv r.1 ++ ",".toList ++ escape_csv r.2.1 ++ ",".toList ++ escape_csv r.2.2
    ++ "\n".toList

/-- The spec's JSON object of a record, up to and including its closing
brace: five lines, keys `file`, `date`, `content` in that order. -/
def spec_json_object (r : Record) : Str :=
  "  \x7b\n".toList
    ++ "    \"file\": \"".toList ++ escape_json r.1 ++ "\",\n".toList
    ++ "    \"date\": \"".toList ++ escape_json r.2.1 ++ "\",\n".toList
    ++ "    \"content\": \"".toList ++ escape_json r.2.2 ++ "\"\n".toList
    ++ "  \x7d".toList

/-- The spec's JSON array body: each object followed by a comma unless it is
the last, and by a newline. -/
def spec_json_objects : List Record → Str
  | [] => []
  | [r] => spec_json_object r ++ "\n".toList
  | r :: r' :: rs => spec_json_object r ++ ",\n".toList ++ spec_json_objects (r' :: rs)

/-- The `page_log` pattern in the spec's words: at least 19 characters, `-`
at positions 4 and 7, a space at position 10, `:` at positions 13 and 16. -/
def spec_page_log_pattern (line : Str) : Prop :=
  19 ≤ line.length ∧ line.get? 4 = some '-' ∧ line.get? 7 = some '-' ∧
    line.get? 10 = some ' ' ∧ line.get? 13 = some ':' ∧ line.get? 16 = some ':'

instance (line : Str) : Decidable (spec_page_log_pattern line) := by
  unfold spec_page_log_pattern
  infer_instance

/-- The spec's quoting of one CSV character: a double quote is doubled,
every other character stands for itself. -/
def spec_double_quote (c : Char) : Str :=
  if c = '"' then ['"', '"'] else [c]

/-- The spec's CSV field: `s` itself when it has neither a double quote nor
a comma, else `s` with its double quotes doubled, between double quotes. -/
def spec_csv_field (s : Str) : Str :=
  if '"' ∈ s ∨ ',' ∈ s then ['"'] ++ s.flatMap spec_double_quote ++ ['"'] else s

/-- The spec's file selection: a regular file whose basename is exactly
`access_log`, `error_log` or `page_log`. -/
def spec_is_log_file (e : DirEntry) : Prop :=
  e.is_regular_file = true ∧
    (filename e.path = "access_log".toList ∨ filename e.path = "error_log".toList ∨
      filename e.path = "page_log".toList)

instance (e : DirEntry) : Decidable (spec_is_log_file e) := by
  unfold spec_is_log_file
  infer_instance

/-- The spec's record of one line of a file: path, extracted date (empty when
the extraction does not return), the line itself. -/
def spec_record (path line : Str) : Record :=
  (path, (extract_date path line).getD [], line)

/-- The spec's record sequence of a walk: for each selected file in
traversal order, one record per line in line order. -/
def spec_records (entries : List DirEntry) : List Record :=
  entries.flatMap (fun e =>
    if spec_is_log_file e then (read_lines e.content).map (spec_record e.path) else [])

/-- The spec's `L`: the number of lines in the selected files of a walk. -/
def spec_total_lines (entries : List DirEntry) : Nat :=
  ((entries.filter (fun e => decide (spec_is_log_file e))).map
    (fun e => (read_lines e.content).length)).sum

/-- A sample tree: `/var/log/cups` holding a sub-directory, an `access_log`
of two lines, a rotated `access_log.1` and a `page_log` that cannot be
opened. -/
def sample_fs : FileSystem where
  fs_exists := fun p => decide (p = "/var/log/cups".toList)
  fs_is_directory := fun p => decide (p = "/var/log/cups".toList)
  recursive_directory_iterator := fun p =>
    if p = "/var/log/cups".toList then
      [⟨"/var/log/cups/old".toList, false, none⟩,
       ⟨"/var/log/cups/access_log".toList, true,
          some "[17/May/2025:17:41:16] GET /job\nno date here".toList⟩,
       ⟨"/var/log/cups/access_log.1".toList, true, some "[x] y\n".toList⟩,
       ⟨"/var/log/cups/page_log".toList, true, none⟩]
    else []

/-- Where a quote-aware CSV reader stands inside a row: at the start of a
field, inside an unquoted field, inside a quoted field, or just after a
double quote met inside a quoted field. -/
inductive CsvState where
  | start
  | plain
  | quoted
  | closing
  deriving DecidableEq, Repr

/-- The spec's quote-aware CSV reader: rows are split on unquoted newlines,
fields on unquoted commas; a quoted field runs to an undoubled double quote
and a doubled double quote inside it stands for one. `field` is the field
read so far, `row` the fields of the current row; a newline as last character
ends the last row and opens no further one. -/
def spec_csv_read : Str → CsvState → Str → List Str → List (List Str)
  | [], st, field, row => if st = CsvState.start ∧ row = [] then [] else [row ++ [field]]
  | c :: cs, CsvState.start, _, row =>
    if c = '"' then spec_csv_read cs CsvState.quoted [] row
    else if c = ',' then spec_csv_read cs CsvState.start [] (row ++ [[]])
    else if c = '\n' then (row ++ [[]]) :: spec_csv_read cs CsvState.start [] []
    else spec_csv_read cs CsvState.plain [c] row
  | c :: cs, CsvState.plain, field, row =>
    if c = ',' then spec_csv_read cs CsvState.start [] (row ++ [field])
    else if c = '\n' then (row ++ [field]) :: spec_csv_read cs CsvState.start [] []
    else spec_csv_read cs CsvState.plain (field ++ [c]) row
  | c :: cs, CsvState.quoted, field, row =>
    if c = '"' then spec_csv_read cs CsvState.closing field row
    else spec_csv_read cs CsvState.quoted (field ++ [c]) row
  | c :: cs, CsvState.closing, field, row =>
    if c = '"' then spec_csv_read cs CsvState.quoted (field ++ ['"']) row
    else if c = ',' then spec_csv_read cs CsvState.start [] (row ++ [field])
    else if c = '\n' then (row ++ [field]) :: spec_csv_read cs CsvState.start [] []
    else spec_csv_read cs CsvState.plain (field ++ [c]) row

/-- The spec's CSV reader applied to a whole text. -/
def spec_csv_parse (text : Str) : List (List Str) :=
  spec_csv_read text CsvState.start [] []

/-- The rows a reader is expected to recover from the CSV of `records`: the
header row and one row of three fields per record. -/
def spec_csv_table (records : List Record) : List (List Str) :=
  ["File".toList, "Date".toList, "Content".toList]
    :: records.map (fun r => [r.1, r.2.1, r.2.2])

/-- JSON whitespace (RFC 8259): space, tab, line feed, carriage return. -/
def json_ws (c : Char) : Bool :=
  decide (c = ' ' ∨ c = '\t' ∨ c = '\n' ∨ c = '\r')

/-- A hexadecimal digit of a `\u` escape. -/
def json_hex (c : Char) : Bool :=
  decide (('0'.toNat ≤ c.toNat ∧ c.toNat ≤ '9'.toNat) ∨
    ('a'.toNat ≤ c.toNat ∧ c.toNat ≤ 'f'.toNat) ∨
    ('A'.toNat ≤ c.toNat ∧ c.toNat ≤ 'F'.toNat))

/-- A character that may stand unescaped inside a JSON string (RFC 8259):
any character from U+0020 on except the double quote and the backslash. -/
def json_unescaped (c : Char) : Bool :=
  decide (0x20 ≤ c.toNat ∧ c ≠ '"' ∧ c ≠ '\\')

/-- A character that may follow a backslash inside a JSON string, `u` apart. -/
def json_escapable (c : Char) : Bool :=
  decide (c = '"' ∨ c = '\\' ∨ c = '/' ∨ c = 'b' ∨ c = 'f' ∨ c = 'n' ∨ c = 'r' ∨ c = 't')

/-- Where a recogniser of JSON arrays of objects with string members stands:
before the array, after `[`, after a comma of the array, after an object,
after the opening brace, after a comma of an object, after a key, after the
colon, after a value, inside a string (a key or a value), after a backslash in
a string, inside a `\u` escape with `n` digits to come, after `]`. -/
inductive JsonState where
  | top
  | array_open
  | array_next
  | array_after
  | object_open
  | object_next
  | key_after
  | value_before
  | object_after
  | in_string (key : Bool)
  | in_escape (key : Bool)
  | in_hex (key : Bool) (n : Nat)
  | done
  deriving DecidableEq, Repr

/-- One character of the spec's JSON recogniser; `none` rejects. -/
def spec_json_step : JsonState → Char → Option JsonState
  | JsonState.top, c =>
    if c = '[' then some JsonState.array_open
    else if json_ws c then some JsonState.top else none
  | JsonState.array_open, c =>
    if c = '{' then some JsonState.object_open
    else if c = ']' then some JsonState.done
    else if json_ws c then some JsonState.array_open else none
  | JsonState.array_next, c =>
    if c = '{' then some JsonState.object_open
    else if json_ws c then some JsonState.array_next else none
  | JsonState.array_after, c =>
    if c = ',' then some JsonState.array_next
    else if c = ']' then some JsonState.done
    else if json_ws c then some JsonState.array_after else none
  | JsonState.object_open, c =>
    if c = '"' then some (JsonState.in_string true)
    else if c = '}' then some JsonState.array_after
    else if json_ws c then some JsonState.object_open else none
  | JsonState.object_next, c =>
    if c = '"' then some (JsonState.in_string true)
    else if json_ws c then some JsonState.object_next else none
  | JsonState.key_after, c =>
    if c = ':' then some JsonState.value_before
    else if json_ws c then some JsonState.key_after else none
  | JsonState.value_before, c =>
    if c = '"' then some (JsonState.in_string false)
    else if json_ws c then some JsonState.value_before else none
  | JsonState.object_after, c =>
    if c = ',' then some JsonState.object_next
    else if c = '}' then some JsonState.array_after
    else if json_ws c then some JsonState.object_after else none
  | JsonState.in_string key, c =>
    if c = '"' then some (if key then JsonState.key_after else JsonState.object_after)
    else if c = '\\' then some (JsonState.in_escape key)
    else if json_unescaped c then some (JsonState.in_string key) else none
  | JsonState.in_escape key, c =>
    if c = 'u' then some (JsonState.in_hex key 4)
    else if json_escapable c then some (JsonState.in_string key) else none
  | JsonState.in_hex key n, c =>
    if json_hex c then
      (if n ≤ 1 then some (JsonState.in_string key) else some (JsonState.in_hex key (n - 1)))
    else none
  | JsonState.done, c => if json_ws c then some JsonState.done else none

/-- The spec's JSON recogniser run over a text from a state. -/
def spec_json_run : JsonState → Str → Option JsonState
  | st, [] => some st
  | st, c :: cs =>
    match spec_json_step st c with
    | none => none
    | some st' => spec_json_run st' cs

/-- The spec's JSON validity of a text: the grammar of RFC 8259 for an array
of objects whose members are strings accepts it. -/
def spec_json_valid (text : Str) : Prop :=
  spec_json_run JsonState.top text = some JsonState.done

instance (text : Str) : Decidable (spec_json_valid text) := by
  unfold spec_json_valid
  infer_instance

/-- The spec's condition on a string for JSON output: its only control
characters (below U+0020) are the five that `escape_json` escapes. -/
def spec_json_safe (s : Str) : Prop :=
  ∀ c ∈ s, c.toNat < 0x20 →
    (c = '\x08' ∨ c = '\x0c' ∨ c = '\n' ∨ c = '\r' ∨ c = '\t')

instance (s : Str) : Decidable (spec_json_safe s) := by
  unfold spec_json_safe
  infer_instance

/-- A tree without the cups directory: nothing exists. -/
def absent_fs : FileSystem where
  fs_exists := fun _ => false
  fs_is_directory := fun _ => false
  recursive_directory_iterator := fun _ => []

/-- How the argument loop of `main` ends: with `return 1` inside the loop, by
leaving the loop with the values of `sysroot` and `fmt`, or not within the
iterations allowed. -/
inductive ArgScan where
  | rejected
  | accepted (sysroot fmt : Str)
  | unfinished
  deriving DecidableEq, Repr

/-- The `for` loop of `main` over `argv` from index `i`, at most `fuel`
evaluations of the loop condition: `-p` or `--path` with a following
argument takes it as `sysroot` and skips it, `csv` or `json` is stored in
`fmt`, anything else returns 1. -/
def main_loop (argv : List Str) : Nat → Nat → Str → Str → ArgScan
  | 0, _, _, _ => ArgScan.unfinished
  | fuel + 1, i, sysroot, fmt =>
    if i < argv.length then
      let arg := argv.getD i []
      if (arg = "-p".toList ∨ arg = "--path".toList) ∧ i + 1 < argv.length then
        main_loop argv fuel (i + 1 + 1) (argv.getD (i + 1) []) fmt
      else if arg = "csv".toList ∨ arg = "json".toList then
        main_loop argv fuel (i + 1) sysroot arg
      else ArgScan.rejected
    else ArgScan.accepted sysroot fmt

/-- The exit code of `main` of `main.cpp` on the arguments `argv` (program
name first) over a file system; `none` is a run that does not return. -/
def main (fs : FileSystem) (argv : List Str) : Option Nat :=
  match main_loop argv (argv.length + 1) 1 "/".toList [] with
  | ArgScan.unfinished => none
  | ArgScan.rejected => some 1
  | ArgScan.accepted sysroot fmt =>
    if fmt = [] then some 2
    else
      match parse_cups_logs fs sysroot fmt with
      | none => none
      | some out => if out = [] then some 3 else some 0

/-- The spec's scan of the arguments after the program name, left to right:
`csv` or `json` is the format seen last, `-p` or `--path` takes the argument
after it as root, and any other argument, also a `-p` or `--path` that is
last, stops the scan (`none`). -/
def spec_scan_args : List Str → Str → Option Str → Option (Str × Option Str)
  | [], root, fmt => some (root, fmt)
  | [arg], root, _ =>
    if arg = "csv".toList ∨ arg = "json".toList then some (root, some arg) else none
  | arg :: value :: rest, root, fmt =>
    if arg = "-p".toList ∨ arg = "--path".toList then spec_scan_args rest value fmt
    else if arg = "csv".toList ∨ arg = "json".toList then
      spec_scan_args (value :: rest) root (some arg)
    else none

/-- The spec's exit code: 1 when the scan stops at an argument, 2 when no
format was seen, 3 when `parse_cups_logs` gave the empty string, else 0.
`out` is the result of `parse_cups_logs` for a root and a format. -/
def spec_exit_code (args : List Str) (out : Str → Str → Str) : Nat :=
  match spec_scan_args args "/".toList none with
  | none => 1
  | some (_, none) => 2
  | some (root, some fmt) => if out root fmt = [] then 3 else 0

/-- The character a two-character JSON escape denotes, by the character
after the backslash. -/
def spec_json_denote (c : Char) : Char :=
  if c = 'b' then '\x08'
  else if c = 'f' then '\x0c'
  else if c = 'n' then '\n'
  else if c = 'r' then '\r'
  else if c = 't' then '\t'
  else c

/-- The spec's decoder of an escaped JSON string, left to right: a backslash
and the character after it give the character the escape denotes, every other
character is copied. -/
def spec_json_unescape : Str → Str
  | [] => []
  | [c] => [c]
  | c :: d :: rest =>
    if c = '\\' then spec_json_denote d :: spec_json_unescape rest
    else c :: spec_json_unescape (d :: rest)

/-- The sample tree without what the collector skips: only its two regular
files named `access_log` and `page_log`. -/
def sample_fs_logs_only : FileSystem where
  fs_exists := fun p => decide (p = "/var/log/cups".toList)
  fs_is_directory := fun p => decide (p = "/var/log/cups".toList)
  recursive_directory_iterator := fun p =>
    if p = "/var/log/cups".toList then
      [⟨"/var/log/cups/access_log".toList, true,
          some "[17/May/2025:17:41:16] GET /job\nno date here".toList⟩,
       ⟨"/var/log/cups/page_log".toList, true, none⟩]
    else []

/-! ## Searching -/

theorem find_loop_not_mem (c : Char) (s : Str) (i : Nat) (h : c ∉ s) :
    find_loop c s i = none := by
  induction s generalizing i with
  | nil => rfl
  | cons x xs ih =>
    have hx : x ≠ c := fun e => h (by simp [e])
    have hxs : c ∉ xs := fun e => h (by simp [e])
    simp [find_loop, hx, ih (i + 1) hxs]

theorem find_loop_first (c : Char) (pre rest : Str) (i : Nat) (h : c ∉ pre) :
    find_loop c (pre ++ c :: rest) i = some (i + pre.length) := by
  induction pre generalizing i with
  | nil => simp [find_loop]
  | cons x xs ih =>
    have hx : x ≠ c := fun e => h (by simp [e])
    have hxs : c ∉ xs := fun e => h (by simp [e])
    simp [find_loop, hx, ih (i + 1) hxs]
    omega

theorem exists_first_split (c : Char) (s : Str) (h : c ∈ s) :
    ∃ pre rest, s = pre ++ c :: rest ∧ c ∉ pre := by
  induction s with
  | nil => cases h
  | cons x xs ih =>
    by_cases hx : x = c
    · exact ⟨[], xs, by simp [hx], by simp⟩
    · have hxs : c ∈ xs := by
        rcases List.mem_cons.1 h with e | e
        · exact absurd e.symm hx
        · exact e
      obtain ⟨pre, rest, e, hpre⟩ := ih hxs
      refine ⟨x :: pre, rest, by simp [e], ?_⟩
      intro hmem
      rcases List.mem_cons.1 hmem with e' | e'
      · exact hx e'.symm
      · exact hpre e'

theorem find_loop_eq_none (c : Char) (s : Str) (i : Nat) :
    find_loop c s i = none ↔ c ∉ s := by
  constructor
  · intro h hc
    obtain ⟨pre, rest, rfl, hpre⟩ := exists_first_split c s hc
    rw [find_loop_first c pre rest i hpre] at h
    cases h
  · exact find_loop_not_mem c s i

theorem find_zero (s : Str) (c : Char) : find s c 0 = find_loop c s 0 := by
  simp [find]

theorem find_zero_eq_none (s : Str) (c : Char) : find s c 0 = none ↔ c ∉ s := by
  rw [find_zero, find_loop_eq_none]

theorem find_from_first (c : Char) (pre rest : Str) (h : c ∉ pre) :
    find (pre ++ c :: rest) c 0 = some pre.length := by
  rw [find_zero, find_loop_first c pre rest 0 h]
  simp

/-! ## Date extraction -/

theorem size_width_pos : 0 < SIZE_WIDTH := by
  unfold SIZE_WIDTH
  positivity

theorem bracket_date_found (pre mid post : Str) (hpre : '[' ∉ pre) (hmid : ']' ∉ mid)
    (hlen : (pre ++ '[' :: mid ++ ']' :: post).length < SIZE_WIDTH) :
    bracket_date (pre ++ '[' :: mid ++ ']' :: post) = some mid := by
  have hstart : find (pre ++ '[' :: mid ++ ']' :: post) '[' 0 = some pre.length := by
    have := find_from_first '[' pre (mid ++ ']' :: post) hpre
    simpa using this
  have hend : find (pre ++ '[' :: mid ++ ']' :: post) ']' pre.length
      = some (pre.length + 1 + mid.length) := by
    unfold find
    have hd : (pre ++ '[' :: mid ++ ']' :: post).drop pre.length = '[' :: (mid ++ ']' :: post) := by
      simp
    rw [hd]
    have hne : ¬ ('[' = ']') := by decide
    rw [find_loop, if_neg hne, find_loop_first ']' mid post (pre.length + 1) hmid]
  simp only [List.length_append, List.length_cons] at hlen
  unfold bracket_date
  simp only [hstart, size_t_of, Option.getD_some, hend]
  have h1 : pre.length ≠ npos := by unfold npos; omega
  have h2 : pre.length + 1 + mid.length ≠ npos := by unfold npos; omega
  rw [if_pos ⟨h1, h2⟩]
  have h3 : size_add pre.length 1 = pre.length + 1 := by
    unfold size_add
    exact Nat.mod_eq_of_lt (by omega)
  have h4 : size_sub (size_sub (pre.length + 1 + mid.length) pre.length) 1 = mid.length := by
    unfold size_sub
    have a : pre.length % SIZE_WIDTH = pre.length := Nat.mod_eq_of_lt (by omega)
    have b : 1 % SIZE_WIDTH = 1 := Nat.mod_eq_of_lt (by omega)
    rw [a, b]
    have c : (pre.length + 1 + mid.length + SIZE_WIDTH - pre.length) % SIZE_WIDTH
        = 1 + mid.length := by
      have : pre.length + 1 + mid.length + SIZE_WIDTH - pre.length
          = (1 + mid.length) + SIZE_WIDTH := by omega
      rw [this, Nat.add_mod_right]
      exact Nat.mod_eq_of_lt (by omega)
    rw [c]
    have : 1 + mid.length + SIZE_WIDTH - 1 = mid.length + SIZE_WIDTH := by omega
    rw [this, Nat.add_mod_right]
    exact Nat.mod_eq_of_lt (by omega)
  rw [h3, h4]
  unfold substr
  have h5 : ¬ ((pre ++ '[' :: mid ++ ']' :: post).length < pre.length + 1) := by
    simp only [List.length_append, List.length_cons]
    omega
  rw [if_neg h5]
  have h6 : (pre ++ '[' :: mid ++ ']' :: post).drop (pre.length + 1) = mid ++ ']' :: post := by
    have : pre ++ '[' :: mid ++ ']' :: post = (pre ++ ['[']) ++ (mid ++ ']' :: post) := by simp
    rw [this]
    have hl : pre.length + 1 = (pre ++ ['[']).length := by simp
    rw [hl, List.drop_left]
  rw [h6]
  simp

theorem bracket_date_no_open (line : Str) (h : '[' ∉ line) : bracket_date line = some [] := by
  unfold bracket_date
  have hstart : find line '[' 0 = none := (find_zero_eq_none line '[').2 h
  simp [hstart, size_t_of]

theorem bracket_date_no_close (pre rest : Str) (hpre : '[' ∉ pre) (hrest : ']' ∉ rest) :
    bracket_date (pre ++ '[' :: rest) = some [] := by
  have hstart : find (pre ++ '[' :: rest) '[' 0 = some pre.length :=
    find_from_first '[' pre rest hpre
  have hend : find (pre ++ '[' :: rest) ']' pre.length = none := by
    unfold find
    have hd : (pre ++ '[' :: rest).drop pre.length = '[' :: rest := by simp
    rw [hd]
    have hne : ¬ ('[' = ']') := by decide
    rw [find_loop, if_neg hne, find_loop_not_mem ']' rest _ hrest]
  unfold bracket_date
  simp [hstart, size_t_of, hend]

/-- C1: on a file whose basename is `access_log`, `extract_date` returns the
characters strictly between the first `[` and the first `]` after it when both
exist, and the empty string when the line has no `[` or has no `]` after its
first `[`. -/
theorem extract_date_access_log (file line : Str)
    (hfile : filename file = "access_log".toList) (hlen : line.length < SIZE_WIDTH) :
    (∀ pre mid post : Str, line = pre ++ '[' :: mid ++ ']' :: post → '[' ∉ pre → ']' ∉ mid →
        extract_date file line = some mid) ∧
    ('[' ∉ line → extract_date file line = some []) ∧
    (∀ pre rest : Str, line = pre ++ '[' :: rest → '[' ∉ pre → ']' ∉ rest →
        extract_date file line = some []) := by
  have hx : extract_date file line = bracket_date line := by
    unfold extract_date
    simp [hfile]
  rw [hx]
  refine ⟨?_, ?_, ?_⟩
  · intro pre mid post e hpre hmid
    subst e
    exact bracket_date_found pre mid post hpre hmid hlen
  · exact bracket_date_no_open line
  · intro pre rest e hpre hrest
    subst e
    exact bracket_date_no_close pre rest hpre hrest

/-- C1, spec scenario 2: the line `[17/May/2025:17:41:16] GET /job` of an
`access_log` has date `17/May/2025:17:41:16`. -/
theorem extract_date_access_log_witness :
    extract_date "/var/log/cups/access_log".toList "[17/May/2025:17:41:16] GET /job".toList
      = some "17/May/2025:17:41:16".toList :=
  (extract_date_access_log "/var/log/cups/access_log".toList
    "[17/May/2025:17:41:16] GET /job".toList (by decide) (by decide)).1
    [] "17/May/2025:17:41:16".toList " GET /job".toList (by decide) (by decide) (by decide)

theorem page_date_eq (line : Str) :
    page_date line = some (if spec_page_log_pattern line then line.take 19 else []) := by
  unfold page_date
  by_cases hlen : 19 ≤ line.length
  · rw [if_pos hlen]
    obtain ⟨a4, h4⟩ : ∃ a, line.get? 4 = some a := ⟨_, List.get?_eq_get (by omega)⟩
    obtain ⟨a7, h7⟩ : ∃ a, line.get? 7 = some a := ⟨_, List.get?_eq_get (by omega)⟩
    obtain ⟨a10, h10⟩ : ∃ a, line.get? 10 = some a := ⟨_, List.get?_eq_get (by omega)⟩
    obtain ⟨a13, h13⟩ : ∃ a, line.get? 13 = some a := ⟨_, List.get?_eq_get (by omega)⟩
    obtain ⟨a16, h16⟩ : ∃ a, line.get? 16 = some a := ⟨_, List.get?_eq_get (by omega)⟩
    have hp : spec_page_log_pattern line ↔
        (a4 = '-' ∧ a7 = '-' ∧ a10 = ' ' ∧ a13 = ':' ∧ a16 = ':') := by
      unfold spec_page_log_pattern
      rw [h4, h7, h10, h13, h16]
      simp [hlen]
    have hf : page_format_ok line = some (decide (a4 = '-' ∧ a7 = '-' ∧ a10 = ' ' ∧
        a13 = ':' ∧ a16 = ':')) := by
      unfold page_format_ok char_at_is
      rw [h4, h7, h10, h13, h16]
      by_cases e4 : a4 = '-' <;> by_cases e7 : a7 = '-' <;> by_cases e10 : a10 = ' ' <;>
        by_cases e13 : a13 = ':' <;> by_cases e16 : a16 = ':' <;>
        simp [and_then, e4, e7, e10, e13, e16]
    rw [hf]
    by_cases h : (a4 = '-' ∧ a7 = '-' ∧ a10 = ' ' ∧ a13 = ':' ∧ a16 = ':')
    · rw [if_pos (hp.2 h)]
      simp [h, substr]
    · rw [if_neg (fun q => h (hp.1 q))]
      simp [h]
  · rw [if_neg hlen]
    have : ¬ spec_page_log_pattern line := fun h => hlen h.1
    rw [if_neg this]

/-- C2: on a file whose basename is `page_log`, `extract_date` returns the
first 19 characters of the line exactly when the line has at least 19
characters with `-` at positions 4 and 7, a space at position 10 and `:` at
positions 13 and 16, and the empty string in every other case. -/
theorem extract_date_page_log (file line : Str) (hfile : filename file = "page_log".toList) :
    extract_date file line
        = some (if spec_page_log_pattern line then line.take 19 else []) ∧
    ((extract_date file line = some (line.take 19) ∧ 19 ≤ line.length)
        ↔ spec_page_log_pattern line) := by
  have hx : extract_date file line = page_date line := by
    unfold extract_date
    have h1 : ¬ ("page_log".toList = "access_log".toList) := by decide
    have h2 : ¬ ("page_log".toList = "error_log".toList) := by decide
    simp only [hfile, if_neg h1, if_neg h2, if_true]
  rw [hx, page_date_eq]
  refine ⟨rfl, ?_⟩
  constructor
  · rintro ⟨h, hlen⟩
    by_contra hp
    rw [if_neg hp] at h
    have h19 : (line.take 19).length = 19 := by simp [List.length_take, hlen]
    have h0 : ([] : Str) = line.take 19 := Option.some.inj h
    rw [← h0] at h19
    simp at h19
  · intro hp
    rw [if_pos hp]
    exact ⟨rfl, hp.1⟩

/-- C2, spec scenario 3: the `page_log` line `2025-05-01 10:59:10 job completed`
has date `2025-05-01 10:59:10`. -/
theorem extract_date_page_log_witness :
    extract_date "/var/log/cups/page_log".toList "2025-05-01 10:59:10 job completed".toList
      = some "2025-05-01 10:59:10".toList :=
  (extract_date_page_log "/var/log/cups/page_log".toList
    "2025-05-01 10:59:10 job completed".toList (by decide)).1.trans (by decide)

/-! ## CSV escaping -/

theorem escape_csv_loop (s acc : Str) :
    s.foldl escape_csv_step acc = acc ++ s.flatMap spec_double_quote := by
  induction s generalizing acc with
  | nil => simp
  | cons c cs ih =>
    rw [List.foldl_cons, ih]
    by_cases hc : c = '"'
    · simp [escape_csv_step, spec_double_quote, hc]
    · simp [escape_csv_step, spec_double_quote, hc]

theorem escape_csv_eq_spec (s : Str) : escape_csv s = spec_csv_field s := by
  unfold escape_csv spec_csv_field
  by_cases h : '"' ∉ s ∧ ',' ∉ s
  · have h' : find s '"' 0 = none ∧ find s ',' 0 = none :=
      ⟨(find_zero_eq_none s '"').2 h.1, (find_zero_eq_none s ',').2 h.2⟩
    rw [if_pos h', if_neg (by tauto)]
  · have h' : ¬ (find s '"' 0 = none ∧ find s ',' 0 = none) := fun q =>
      h ⟨(find_zero_eq_none s '"').1 q.1, (find_zero_eq_none s ',').1 q.2⟩
    rw [if_neg h', if_pos (by tauto)]
    simp only [escape_csv_loop]
    simp

/-- C3: `escape_csv s` is `s` unchanged when `s` has neither a double quote
nor a comma, and otherwise a double quote, `s` with every double quote doubled
and every other character kept, and a closing double quote. -/
theorem escape_csv_rule (s : Str) :
    ((¬ ('"' ∈ s) ∧ ¬ (',' ∈ s)) → escape_csv s = s) ∧
    (('"' ∈ s ∨ ',' ∈ s) → escape_csv s
        = ['"'] ++ s.flatMap (fun c => if c = '"' then ['"', '"'] else [c]) ++ ['"']) := by
  rw [escape_csv_eq_spec]
  unfold spec_csv_field
  constructor
  · intro h
    rw [if_neg (by tauto)]
  · intro h
    rw [if_pos h]
    rfl

/-- C3, spec scenario 5: the field `say "hi", now` is rendered as
`"say ""hi"", now"`, and a field with only a newline is left alone. -/
theorem escape_csv_rule_witness :
    escape_csv "say \"hi\", now".toList = "\"say \"\"hi\"\", now\"".toList ∧
    escape_csv "a\nb\r".toList = "a\nb\r".toList :=
  ⟨((escape_csv_rule "say \"hi\", now".toList).2 (by decide)).trans (by decide),
   (escape_csv_rule "a\nb\r".toList).1 (by decide)⟩

/-! ## JSON escaping -/

theorem escape_json_step_eq (out : Str) (c : Char) :
    escape_json_step out c = out ++ spec_json_escape c := by
  unfold escape_json_step spec_json_escape
  repeat' split
  all_goals rfl

theorem escape_json_loop (s acc : Str) :
    s.foldl escape_json_step acc = acc ++ s.flatMap spec_json_escape := by
  induction s generalizing acc with
  | nil => simp
  | cons c cs ih =>
    rw [List.foldl_cons, ih, escape_json_step_eq]
    simp

theorem escape_json_eq_spec (s : Str) : escape_json s = s.flatMap spec_json_escape := by
  unfold escape_json
  rw [escape_json_loop]
  simp

/-- C5: `escape_json s` is the concatenation, in order, of one piece per
character of `s`: the two-character escape for double quote, backslash,
backspace, form feed, newline, carriage return and tab, and the character
itself for every other character. -/
theorem escape_json_rule (s : Str) :
    escape_json s = s.flatMap (fun c =>
      if c = '"' then ['\\', '"']
      else if c = '\\' then ['\\', '\\']
      else if c = '\x08' then ['\\', 'b']
      else if c = '\x0c' then ['\\', 'f']
      else if c = '\n' then ['\\', 'n']
      else if c = '\r' then ['\\', 'r']
      else if c = '\t' then ['\\', 't']
      else [c]) := by
  rw [escape_json_eq_spec]
  rfl

/-! ## CSV output -/

theorem to_csv_loop (data : List Record) (out : Str) :
    data.foldl to_csv_step out = out ++ data.flatMap spec_csv_row := by
  induction data generalizing out with
  | nil => simp
  | cons r rs ih =>
    rw [List.foldl_cons, ih]
    simp [to_csv_step, spec_csv_row]

theorem to_csv_eq_spec (data : List Record) :
    to_csv data = "File,Date,Content\n".toList ++ data.flatMap spec_csv_row := by
  unfold to_csv
  rw [to_csv_loop]
  simp

theorem flatMap_csv_row_getLast (data : List Record) (h : data ≠ []) :
    (data.flatMap spec_csv_row).getLast? = some '\n' := by
  induction data with
  | nil => exact absurd rfl h
  | cons r rs ih =>
    by_cases hrs : rs = []
    · subst hrs
      have hrow : spec_csv_row r = (escape_csv r.1 ++ ",".toList ++ escape_csv r.2.1
          ++ ",".toList ++ escape_csv r.2.2) ++ ['\n'] := rfl
      rw [List.flatMap_cons, List.flatMap_nil, List.append_nil, hrow, List.getLast?_concat]
    · rw [List.flatMap_cons, List.getLast?_append, ih hrs]
      rfl

/-- C7: `to_csv` is the header line `File,Date,Content` with its newline,
followed for each record in order by the three escaped fields separated by
commas and a newline; so the output starts with the header and ends with a
newline. -/
theorem to_csv_rule (data : List Record) :
    to_csv data = "File,Date,Content\n".toList ++ data.flatMap (fun r =>
        escape_csv r.1 ++ [','] ++ escape_csv r.2.1 ++ [','] ++ escape_csv r.2.2 ++ ['\n']) ∧
    "File,Date,Content\n".toList <+: to_csv data ∧
    (to_csv data).getLast? = some '\n' := by
  have h := to_csv_eq_spec data
  refine ⟨h, ?_, ?_⟩
  · rw [h]
    exact List.prefix_append _ _
  · rw [h]
    by_cases hd : data = []
    · subst hd
      decide
    · rw [List.getLast?_append, flatMap_csv_row_getLast data hd]
      rfl

/-! ## JSON output -/

theorem to_json_loop (pre rest : List Record) (out : Str) :
    (List.range' pre.length rest.length).foldl (to_json_step (pre ++ rest)) out
      = out ++ spec_json_objects rest := by
  induction rest generalizing pre out with
  | nil => simp [spec_json_objects]
  | cons r rs ih =>
    have hstep : List.range' pre.length (r :: rs).length
        = pre.length :: List.range' (pre.length + 1) rs.length := by
      simp [List.range']
    have hget : (pre ++ r :: rs).getD pre.length ([], [], []) = r := by
      rw [List.getD_eq_getElem?_getD, List.getElem?_append_right (le_refl _)]
      simp
    have hpre : pre ++ r :: rs = (pre ++ [r]) ++ rs := by simp
    have hlen : (pre ++ [r]).length = pre.length + 1 := by simp
    rw [hstep, List.foldl_cons]
    have ih' := ih (pre ++ [r])
    rw [hlen, ← hpre] at ih'
    rw [ih']
    unfold to_json_step
    rw [hget]
    cases rs with
    | nil => simp [spec_json_objects, spec_json_object]
    | cons r' rs' => simp [spec_json_objects, spec_json_object]

theorem to_json_eq_spec (data : List Record) :
    to_json data = "[\n".toList ++ spec_json_objects data ++ "]".toList := by
  unfold to_json
  have h := to_json_loop [] data ([] ++ "[\n".toList)
  simp only [List.length_nil, List.nil_append] at h
  rw [List.range_eq_range']
  simp only [List.nil_append]
  rw [h]

/-- C8: `to_json` is `[` and a newline, then the objects of the records in
order, each five lines with keys `file`, `date`, `content` indented by two
spaces per level, a comma after every closing brace but the last, a newline
after each, and finally `]` with nothing after it. -/
theorem to_json_rule (data : List Record) :
    to_json data = "[\n".toList ++ spec_json_objects data ++ "]".toList ∧
    (∀ r : Record, spec_json_object r =
      "  \x7b\n    \"file\": \"".toList ++ escape_json r.1
        ++ "\",\n    \"date\": \"".toList ++ escape_json r.2.1
        ++ "\",\n    \"content\": \"".toList ++ escape_json r.2.2
        ++ "\"\n  \x7d".toList) ∧
    (∀ r : Record, spec_json_objects [r] = spec_json_object r ++ ['\n']) ∧
    (∀ (r r' : Record) (rs : List Record), spec_json_objects (r :: r' :: rs)
        = spec_json_object r ++ [',', '\n'] ++ spec_json_objects (r' :: rs)) ∧
    to_json [] = ['[', '\n', ']'] ∧
    (to_json data).getLast? = some ']' := by
  have h := to_json_eq_spec data
  refine ⟨h, ?_, ?_, ?_, ?_, ?_⟩
  · intro r
    simp [spec_json_object]
  · intro r
    rfl
  · intro r r' rs
    rfl
  · decide
  · rw [h]
    exact List.getLast?_concat _

/-- C8 on two records: the first object is followed by a comma, the last one
is not. -/
theorem to_json_rule_witness :
    to_json [("a".toList, "".toList, "x\"y".toList), ("b".toList, "d".toList, "z".toList)]
      = ("[\n  \x7b\n    \"file\": \"a\",\n    \"date\": \"\",\n    \"content\": \"x\\\"y\"\n  \x7d,\n"
        ++ "  \x7b\n    \"file\": \"b\",\n    \"date\": \"d\",\n    \"content\": \"z\"\n  \x7d\n]").toList :=
  (to_json_rule [("a".toList, "".toList, "x\"y".toList),
    ("b".toList, "d".toList, "z".toList)]).1.trans (by decide)

/-! ## The collector -/

theorem find_loop_bound (c : Char) (s : Str) (i k : Nat) (h : find_loop c s i = some k) :
    i ≤ k ∧ k < i + s.length := by
  induction s generalizing i with
  | nil => cases h
  | cons x xs ih =>
    unfold find_loop at h
    by_cases hx : x = c
    · rw [if_pos hx] at h
      cases h
      simp
    · rw [if_neg hx] at h
      have := ih (i + 1) h
      simp only [List.length_cons]
      omega

theorem find_zero_bound (s : Str) (c : Char) (k : Nat) (h : find s c 0 = some k) :
    k < s.length := by
  rw [find_zero] at h
  have := find_loop_bound c s 0 k h
  omega

theorem bracket_date_returns (line : Str) : ∃ d, bracket_date line = some d := by
  unfold bracket_date
  cases hstart : find line '[' 0 with
  | none => exact ⟨[], by simp [size_t_of]⟩
  | some p =>
    have hp : p < line.length := find_zero_bound line '[' p hstart
    simp only [size_t_of, Option.getD_some]
    split
    · unfold substr
      have hle : size_add p 1 ≤ p + 1 := Nat.mod_le _ _
      rw [if_neg (by omega)]
      exact ⟨_, rfl⟩
    · exact ⟨[], rfl⟩

theorem extract_date_returns (file line : Str) : ∃ d, extract_date file line = some d := by
  unfold extract_date
  simp only []
  split
  · exact bracket_date_returns line
  · split
    · exact bracket_date_returns line
    · split
      · exact ⟨_, page_date_eq line⟩
      · exact ⟨[], rfl⟩

theorem collect_line_eq (path : Str) (rs : List Record) (line : Str) :
    collect_line path (some rs) line = some (rs ++ [spec_record path line]) := by
  obtain ⟨d, hd⟩ := extract_date_returns path line
  simp [collect_line, spec_record, hd]

theorem collect_lines_eq (path : Str) (lines : List Str) (rs : List Record) :
    lines.foldl (collect_line path) (some rs) = some (rs ++ lines.map (spec_record path)) := by
  induction lines generalizing rs with
  | nil => simp
  | cons l ls ih =>
    rw [List.foldl_cons, collect_line_eq, ih]
    simp

theorem mem_log_names_iff (fn : Str) :
    fn ∈ log_names ↔ (fn = "access_log".toList ∨ fn = "error_log".toList ∨
      fn = "page_log".toList) := by
  simp [log_names]

theorem collect_entry_eq (rs : List Record) (e : DirEntry) :
    collect_entry (some rs) e = some (rs ++
      (if spec_is_log_file e then (read_lines e.content).map (spec_record e.path) else [])) := by
  unfold collect_entry
  by_cases hreg : e.is_regular_file = true
  · by_cases hfn : filename e.path ∈ log_names
    · have hsel : spec_is_log_file e := ⟨hreg, (mem_log_names_iff _).1 hfn⟩
      simp only [hreg, Bool.not_true, Bool.false_eq_true, if_false, hfn, if_true]
      rw [collect_lines_eq, if_pos hsel]
    · have hsel : ¬ spec_is_log_file e := fun q => hfn ((mem_log_names_iff _).2 q.2)
      simp only [hreg, Bool.not_true, Bool.false_eq_true, if_false, hfn]
      rw [if_neg hsel]
      simp
  · have hsel : ¬ spec_is_log_file e := fun q => hreg q.1
    simp only [Bool.not_eq_true] at hreg
    simp only [hreg, Bool.not_false, if_true]
    rw [if_neg hsel]
    simp

theorem collect_loop_eq (entries : List DirEntry) (rs : List Record) :
    entries.foldl collect_entry (some rs) = some (rs ++ spec_records entries) := by
  induction entries generalizing rs with
  | nil => simp [spec_records]
  | cons e es ih =>
    rw [List.foldl_cons, collect_entry_eq, ih]
    simp [spec_records]

theorem collect_records_eq (entries : List DirEntry) :
    collect_records entries = some (spec_records entries) := by
  unfold collect_records
  rw [collect_loop_eq]
  simp

theorem spec_records_length (entries : List DirEntry) :
    (spec_records entries).length = spec_total_lines entries := by
  induction entries with
  | nil => rfl
  | cons e es ih =>
    unfold spec_records spec_total_lines at *
    rw [List.flatMap_cons, List.length_append, ih]
    by_cases h : spec_is_log_file e
    · simp [h, List.filter_cons]
    · simp [h, List.filter_cons]

theorem spec_json_objects_intercalate (r : Record) (rs : List Record) :
    spec_json_objects (r :: rs)
      = (",\n".toList).intercalate ((r :: rs).map spec_json_object) ++ "\n".toList := by
  induction rs generalizing r with
  | nil => simp [spec_json_objects, List.intercalate]
  | cons r' rs' ih =>
    have h := ih r'
    simp only [List.intercalate, List.map_cons, List.intersperse] at h ⊢
    simp only [spec_json_objects, h]
    simp

/-- C9: over a walk given as the traversal-ordered list of its entries, the
collector loop returns and builds exactly `L` records, `L` being the number
of lines of the regular files named `access_log`, `error_log` or `page_log`;
the CSV text is the header and `L` rows, the JSON text an array of `L`
objects. -/
theorem collect_records_count (entries : List DirEntry) :
    ∃ records, collect_records entries = some records ∧
      records.length = spec_total_lines entries ∧
      (∃ rows : List Str, rows.length = spec_total_lines entries ∧
        rows = records.map spec_csv_row ∧
        to_csv records = "File,Date,Content\n".toList ++ rows.flatten) ∧
      (∃ objects : List Str, objects.length = spec_total_lines entries ∧
        objects = records.map spec_json_object ∧
        to_json records = "[\n".toList ++ (",\n".toList).intercalate objects
          ++ (if objects = [] then [] else "\n".toList) ++ "]".toList) := by
  refine ⟨spec_records entries, collect_records_eq entries, spec_records_length entries, ?_, ?_⟩
  · refine ⟨_, ?_, rfl, ?_⟩
    · rw [List.length_map, spec_records_length]
    · rw [to_csv_eq_spec, List.flatMap_def]
  · refine ⟨_, ?_, rfl, ?_⟩
    · rw [List.length_map, spec_records_length]
    · rw [to_json_eq_spec]
      cases h : spec_records entries with
      | nil => simp [spec_json_objects, List.intercalate]
      | cons r rs =>
        rw [spec_json_objects_intercalate]
        simp

/-- C9 on the sample tree: two lines in its only readable log file, two
records. -/
theorem collect_records_count_witness :
    ∃ records, collect_records (sample_fs.recursive_directory_iterator
        "/var/log/cups".toList) = some records ∧ records.length = 2 := by
  obtain ⟨records, h, hlen, _⟩ := collect_records_count
    (sample_fs.recursive_directory_iterator "/var/log/cups".toList)
  exact ⟨records, h, hlen.trans (by decide)⟩

/-! ## The result of `parse_cups_logs` -/

theorem to_csv_ne_nil (data : List Record) : to_csv data ≠ [] := by
  rw [to_csv_eq_spec]
  intro h
  have := congrArg List.length h
  simp at this

theorem to_json_ne_nil (data : List Record) : to_json data ≠ [] := by
  rw [to_json_eq_spec]
  intro h
  have := congrArg List.length h
  simp at this

theorem spec_records_eq_nil (entries : List DirEntry) :
    spec_records entries = [] ↔
      ∀ e ∈ entries, spec_is_log_file e → read_lines e.content = [] := by
  unfold spec_records
  rw [List.flatMap_eq_nil_iff]
  constructor
  · intro h e he hsel
    have := h e he
    rw [if_pos hsel] at this
    simpa using this
  · intro h e he
    by_cases hsel : spec_is_log_file e
    · rw [if_pos hsel, h e he hsel]
      rfl
    · rw [if_neg hsel]

/-- C10: `parse_cups_logs` returns, and what it returns is the empty string
exactly when the cups directory does not exist, or is not a directory, or the
walk collects no record, that is when every selected file has no lines; with
at least one record the text is non-empty whatever the format. -/
theorem parse_cups_logs_empty_iff (fs : FileSystem) (sysroot format : Str) :
    ∃ out, parse_cups_logs fs sysroot format = some out ∧
      (out = [] ↔
        (fs.fs_exists (cups_root sysroot) = false ∨
          fs.fs_is_directory (cups_root sysroot) = false ∨
          collect_records (fs.recursive_directory_iterator (cups_root sysroot)) = some [])) ∧
      (collect_records (fs.recursive_directory_iterator (cups_root sysroot)) = some [] ↔
        ∀ e ∈ fs.recursive_directory_iterator (cups_root sysroot),
          spec_is_log_file e → read_lines e.content = []) := by
  have hc := collect_records_eq (fs.recursive_directory_iterator (cups_root sysroot))
  have hnil := spec_records_eq_nil (fs.recursive_directory_iterator (cups_root sysroot))
  unfold parse_cups_logs
  rw [hc]
  by_cases hex : fs.fs_exists (cups_root sysroot) = true
  · by_cases hdir : fs.fs_is_directory (cups_root sysroot) = true
    · by_cases hrec : spec_records (fs.recursive_directory_iterator (cups_root sysroot)) = []
      · refine ⟨[], by simp [hex, hdir, hrec], by simp [hrec], ?_⟩
        rw [← hnil]
        simp
      · by_cases hfmt : format = ['j', 's', 'o', 'n']
        · refine ⟨to_json (spec_records (fs.recursive_directory_iterator (cups_root sysroot))),
            by simp [hex, hdir, hrec, hfmt], ?_, ?_⟩
          · simp [hex, hdir, hrec, to_json_ne_nil]
          · rw [← hnil]
            simp
        · refine ⟨to_csv (spec_records (fs.recursive_directory_iterator (cups_root sysroot))),
            by simp [hex, hdir, hrec, hfmt], ?_, ?_⟩
          · simp [hex, hdir, hrec, to_csv_ne_nil]
          · rw [← hnil]
            simp
    · refine ⟨[], by simp [hdir], by simp [hdir], ?_⟩
      rw [← hnil]
      simp
  · refine ⟨[], by simp [hex], by simp [hex], ?_⟩
    rw [← hnil]
    simp

/-- C10 on the sample tree under root `/`: the scanned directory is
`/var/log/cups`, it holds records, and the result is not empty. -/
theorem parse_cups_logs_empty_iff_witness :
    cups_root "/".toList = "/var/log/cups".toList ∧
    ∃ out, parse_cups_logs sample_fs "/".toList "json".toList = some out ∧ out ≠ [] := by
  refine ⟨by decide, ?_⟩
  obtain ⟨out, h, hiff, _⟩ := parse_cups_logs_empty_iff sample_fs "/".toList "json".toList
  refine ⟨out, h, fun e => ?_⟩
  have h3 := hiff.1 e
  revert h3
  decide

/-! ## Reading the CSV back -/

theorem csv_read_start_as_plain (c : Char) (cs : Str) (row : List Str) (h : c ≠ '"') :
    spec_csv_read (c :: cs) CsvState.start [] row
      = spec_csv_read (c :: cs) CsvState.plain [] row := by
  simp only [spec_csv_read, if_neg h, List.nil_append]

theorem csv_read_closing_as_plain (d : Char) (rest field : Str) (row : List Str)
    (hd : d = ',' ∨ d = '\n') :
    spec_csv_read (d :: rest) CsvState.closing field row
      = spec_csv_read (d :: rest) CsvState.plain field row := by
  have hq : d ≠ '"' := by
    rcases hd with e | e <;> rw [e] <;> decide
  simp only [spec_csv_read, if_neg hq]

theorem csv_read_open_quote (cs : Str) (row : List Str) :
    spec_csv_read ('"' :: cs) CsvState.start [] row
      = spec_csv_read cs CsvState.quoted [] row := by
  simp only [spec_csv_read, if_true]

theorem csv_read_plain_comma (cs field : Str) (row : List Str) :
    spec_csv_read (',' :: cs) CsvState.plain field row
      = spec_csv_read cs CsvState.start [] (row ++ [field]) := by
  simp only [spec_csv_read, if_true]

theorem csv_read_plain_newline (cs field : Str) (row : List Str) :
    spec_csv_read ('\n' :: cs) CsvState.plain field row
      = (row ++ [field]) :: spec_csv_read cs CsvState.start [] [] := by
  have hne : ¬ ('\n' = ',') := by decide
  simp only [spec_csv_read, if_neg hne, if_true]

theorem csv_read_plain (s tail acc : Str) (row : List Str)
    (hc : ',' ∉ s) (hn : '\n' ∉ s) :
    spec_csv_read (s ++ tail) CsvState.plain acc row
      = spec_csv_read tail CsvState.plain (acc ++ s) row := by
  induction s generalizing acc with
  | nil => simp
  | cons c cs ih =>
    have h1 : c ≠ ',' := fun e => hc (by simp [e])
    have h2 : c ≠ '\n' := fun e => hn (by simp [e])
    have hc' : ',' ∉ cs := fun e => hc (by simp [e])
    have hn' : '\n' ∉ cs := fun e => hn (by simp [e])
    rw [List.cons_append]
    simp only [spec_csv_read, if_neg h1, if_neg h2]
    rw [ih (acc ++ [c]) hc' hn']
    simp

theorem csv_read_quoted (s tail acc : Str) (row : List Str) :
    spec_csv_read (s.flatMap spec_double_quote ++ '"' :: tail) CsvState.quoted acc row
      = spec_csv_read tail CsvState.closing (acc ++ s) row := by
  induction s generalizing acc with
  | nil => simp [spec_csv_read]
  | cons c cs ih =>
    by_cases h : c = '"'
    · subst h
      have : ('"' :: cs).flatMap spec_double_quote ++ '"' :: tail
          = '"' :: '"' :: (cs.flatMap spec_double_quote ++ '"' :: tail) := by
        simp [spec_double_quote]
      rw [this]
      simp only [spec_csv_read, if_true]
      rw [ih (acc ++ ['"'])]
      simp
    · have : (c :: cs).flatMap spec_double_quote ++ '"' :: tail
          = c :: (cs.flatMap spec_double_quote ++ '"' :: tail) := by
        simp [spec_double_quote, h]
      rw [this]
      simp only [spec_csv_read, if_neg h]
      rw [ih (acc ++ [c])]
      simp

theorem csv_read_field (s rest : Str) (d : Char) (row : List Str)
    (hd : d = ',' ∨ d = '\n') (hs : '\n' ∈ s → ('"' ∈ s ∨ ',' ∈ s)) :
    spec_csv_read (escape_csv s ++ d :: rest) CsvState.start [] row
      = spec_csv_read (d :: rest) CsvState.plain s row := by
  have hq : d ≠ '"' := by
    rcases hd with e | e <;> rw [e] <;> decide
  rw [escape_csv_eq_spec]
  unfold spec_csv_field
  by_cases h : '"' ∈ s ∨ ',' ∈ s
  · rw [if_pos h]
    have : ['"'] ++ s.flatMap spec_double_quote ++ ['"'] ++ d :: rest
        = '"' :: (s.flatMap spec_double_quote ++ '"' :: d :: rest) := by simp
    rw [this, csv_read_open_quote, csv_read_quoted, csv_read_closing_as_plain d rest _ row hd]
    simp
  · rw [if_neg h]
    have h1 : '"' ∉ s := fun e => h (Or.inl e)
    have h2 : ',' ∉ s := fun e => h (Or.inr e)
    have h3 : '\n' ∉ s := fun e => h (hs e)
    cases s with
    | nil =>
      rw [List.nil_append]
      exact csv_read_start_as_plain d rest row hq
    | cons c cs =>
      have hc : c ≠ '"' := fun e => h1 (by simp [e])
      rw [List.cons_append, csv_read_start_as_plain c _ row hc, ← List.cons_append,
        csv_read_plain (c :: cs) (d :: rest) [] row h2 h3]
      simp

theorem csv_read_row (r : Record) (rest : Str)
    (h1 : '\n' ∈ r.1 → ('"' ∈ r.1 ∨ ',' ∈ r.1))
    (h2 : '\n' ∈ r.2.1 → ('"' ∈ r.2.1 ∨ ',' ∈ r.2.1))
    (h3 : '\n' ∈ r.2.2 → ('"' ∈ r.2.2 ∨ ',' ∈ r.2.2)) :
    spec_csv_read (spec_csv_row r ++ rest) CsvState.start [] []
      = [r.1, r.2.1, r.2.2] :: spec_csv_read rest CsvState.start [] [] := by
  have hrow : spec_csv_row r ++ rest
      = escape_csv r.1 ++ ',' :: (escape_csv r.2.1 ++ ',' :: (escape_csv r.2.2 ++ '\n' :: rest)) := by
    simp [spec_csv_row]
  rw [hrow, csv_read_field r.1 _ ',' [] (Or.inl rfl) h1, csv_read_plain_comma,
    csv_read_field r.2.1 _ ',' _ (Or.inl rfl) h2, csv_read_plain_comma,
    csv_read_field r.2.2 _ '\n' _ (Or.inr rfl) h3, csv_read_plain_newline]
  simp

theorem csv_read_rows (records : List Record)
    (h : ∀ r ∈ records, ('\n' ∈ r.1 → ('"' ∈ r.1 ∨ ',' ∈ r.1)) ∧
      ('\n' ∈ r.2.1 → ('"' ∈ r.2.1 ∨ ',' ∈ r.2.1)) ∧
      ('\n' ∈ r.2.2 → ('"' ∈ r.2.2 ∨ ',' ∈ r.2.2))) :
    spec_csv_read (records.flatMap spec_csv_row) CsvState.start [] []
      = records.map (fun r => [r.1, r.2.1, r.2.2]) := by
  induction records with
  | nil => simp [spec_csv_read]
  | cons r rs ih =>
    have hr := h r (by simp)
    have hrs : ∀ r' ∈ rs, _ := fun r' hr' => h r' (by simp [hr'])
    rw [List.flatMap_cons, csv_read_row r _ hr.1 hr.2.1 hr.2.2, ih hrs]
    simp

theorem csv_parse_to_csv (records : List Record)
    (h : ∀ r ∈ records, ('\n' ∈ r.1 → ('"' ∈ r.1 ∨ ',' ∈ r.1)) ∧
      ('\n' ∈ r.2.1 → ('"' ∈ r.2.1 ∨ ',' ∈ r.2.1)) ∧
      ('\n' ∈ r.2.2 → ('"' ∈ r.2.2 ∨ ',' ∈ r.2.2))) :
    spec_csv_parse (to_csv records) = spec_csv_table records := by
  unfold spec_csv_parse spec_csv_table
  rw [to_csv_eq_spec]
  have hhead : ∀ rest : Str,
      spec_csv_read ("File,Date,Content\n".toList ++ rest) CsvState.start [] []
        = ["File".toList, "Date".toList, "Content".toList]
          :: spec_csv_read rest CsvState.start [] [] := by
    intro rest
    have h0 : "File,Date,Content\n".toList
        = spec_csv_row ("File".toList, "Date".toList, "Content".toList) := by decide
    rw [h0, csv_read_row _ rest (by decide) (by decide) (by decide)]
  rw [hhead, csv_read_rows records h]

/-- C4 as stated fails: a record whose content has no newline and no
carriage return, but whose path has a newline in a directory name, is read
back as two rows. -/
theorem csv_round_trip_counterexample :
    ('\n' ∉ "x".toList ∧ '\r' ∉ "x".toList) ∧
    to_csv [("/var/log/cups/a\nb/access_log".toList, "".toList, "x".toList)]
      = "File,Date,Content\n/var/log/cups/a\nb/access_log,,x\n".toList ∧
    spec_csv_parse (to_csv [("/var/log/cups/a\nb/access_log".toList, "".toList, "x".toList)])
      = [["File".toList, "Date".toList, "Content".toList],
         ["/var/log/cups/a".toList],
         ["b/access_log".toList, "".toList, "x".toList]] ∧
    spec_csv_parse (to_csv [("/var/log/cups/a\nb/access_log".toList, "".toList, "x".toList)])
      ≠ spec_csv_table [("/var/log/cups/a\nb/access_log".toList, "".toList, "x".toList)] := by
  decide

/-- C4 amended: for records whose content has no newline and no carriage
return and whose path and date have no newline, the quote-aware reader
recovers from `to_csv` the header row followed by the original triples in
order. -/
theorem csv_round_trip (records : List Record)
    (h : ∀ r ∈ records, '\n' ∉ r.1 ∧ '\n' ∉ r.2.1 ∧ '\n' ∉ r.2.2 ∧ '\r' ∉ r.2.2) :
    spec_csv_parse (to_csv records)
      = ["File".toList, "Date".toList, "Content".toList]
        :: records.map (fun r => [r.1, r.2.1, r.2.2]) := by
  have h' : ∀ r ∈ records, ('\n' ∈ r.1 → ('"' ∈ r.1 ∨ ',' ∈ r.1)) ∧
      ('\n' ∈ r.2.1 → ('"' ∈ r.2.1 ∨ ',' ∈ r.2.1)) ∧
      ('\n' ∈ r.2.2 → ('"' ∈ r.2.2 ∨ ',' ∈ r.2.2)) := by
    intro r hr
    obtain ⟨a, b, c, _⟩ := h r hr
    exact ⟨fun q => absurd q a, fun q => absurd q b, fun q => absurd q c⟩
  exact csv_parse_to_csv records h'

/-- C4 amended, on two records with commas and double quotes. -/
theorem csv_round_trip_witness :
    spec_csv_parse (to_csv
      [("/var/log/cups/access_log".toList, "17/May/2025:17:41:16".toList,
          "[17/May/2025:17:41:16] \"GET /job\", ok".toList),
       ("/var/log/cups/page_log".toList, "".toList, "say \"hi\", now".toList)])
      = ["File".toList, "Date".toList, "Content".toList]
        :: [["/var/log/cups/access_log".toList, "17/May/2025:17:41:16".toList,
              "[17/May/2025:17:41:16] \"GET /job\", ok".toList],
            ["/var/log/cups/page_log".toList, "".toList, "say \"hi\", now".toList]] :=
  csv_round_trip
    [("/var/log/cups/access_log".toList, "17/May/2025:17:41:16".toList,
        "[17/May/2025:17:41:16] \"GET /job\", ok".toList),
     ("/var/log/cups/page_log".toList, "".toList, "say \"hi\", now".toList)]
    (by decide)

/-! ## Validity of the JSON output -/

theorem json_run_cons (st : JsonState) (c : Char) (cs : Str) :
    spec_json_run st (c :: cs)
      = (spec_json_step st c).bind (fun st' => spec_json_run st' cs) := by
  cases h : spec_json_step st c with
  | none => simp [spec_json_run, h]
  | some st' => simp [spec_json_run, h]

theorem json_run_append (st : JsonState) (a b : Str) :
    spec_json_run st (a ++ b)
      = (spec_json_run st a).bind (fun st' => spec_json_run st' b) := by
  induction a generalizing st with
  | nil => simp [spec_json_run]
  | cons c cs ih =>
    rw [List.cons_append, json_run_cons, json_run_cons]
    cases spec_json_step st c with
    | none => rfl
    | some st' => exact ih st'

theorem json_run_escape_char (key : Bool) (c : Char)
    (hc : c.toNat < 0x20 → (c = '\x08' ∨ c = '\x0c' ∨ c = '\n' ∨ c = '\r' ∨ c = '\t')) :
    spec_json_run (JsonState.in_string key) (spec_json_escape c)
      = some (JsonState.in_string key) := by
  unfold spec_json_escape
  split
  · cases key <;> rfl
  split
  · cases key <;> rfl
  split
  · cases key <;> rfl
  split
  · cases key <;> rfl
  split
  · cases key <;> rfl
  split
  · cases key <;> rfl
  split
  · cases key <;> rfl
  rename_i h1 h2 h3 h4 h5 h6 h7
  have hge : 0x20 ≤ c.toNat := by
    by_contra hlt
    rcases hc (by omega) with e | e | e | e | e
    · exact h3 e
    · exact h4 e
    · exact h5 e
    · exact h6 e
    · exact h7 e
  have hu : json_unescaped c = true := by
    simp [json_unescaped, hge, h1, h2]
  simp [spec_json_run, spec_json_step, h1, h2, hu]

theorem json_run_escape_json (key : Bool) (s : Str) (hs : spec_json_safe s) :
    spec_json_run (JsonState.in_string key) (escape_json s)
      = some (JsonState.in_string key) := by
  rw [escape_json_eq_spec]
  induction s with
  | nil => rfl
  | cons c cs ih =>
    have hc := hs c (by simp)
    have hcs : spec_json_safe cs := fun x hx => hs x (by simp [hx])
    rw [List.flatMap_cons, json_run_append, json_run_escape_char key c hc]
    exact ih hcs

theorem json_run_object (st : JsonState) (r : Record)
    (hst : st = JsonState.array_open ∨ st = JsonState.array_next)
    (h1 : spec_json_safe r.1) (h2 : spec_json_safe r.2.1) (h3 : spec_json_safe r.2.2) :
    spec_json_run st (spec_json_object r) = some JsonState.array_after := by
  have c1 : spec_json_run st ("  \x7b\n".toList ++ "    \"file\": \"".toList)
      = some (JsonState.in_string false) := by
    rcases hst with e | e <;> rw [e] <;> decide
  have c2 : spec_json_run (JsonState.in_string false)
      ("\",\n".toList ++ "    \"date\": \"".toList) = some (JsonState.in_string false) := by
    decide
  have c3 : spec_json_run (JsonState.in_string false)
      ("\",\n".toList ++ "    \"content\": \"".toList) = some (JsonState.in_string false) := by
    decide
  have c4 : spec_json_run (JsonState.in_string false)
      ("\"\n".toList ++ "  \x7d".toList) = some JsonState.array_after := by
    decide
  have hobj : spec_json_object r
      = ("  \x7b\n".toList ++ "    \"file\": \"".toList) ++ (escape_json r.1
        ++ (("\",\n".toList ++ "    \"date\": \"".toList) ++ (escape_json r.2.1
        ++ (("\",\n".toList ++ "    \"content\": \"".toList) ++ (escape_json r.2.2
        ++ ("\"\n".toList ++ "  \x7d".toList)))))) := by
    simp [spec_json_object]
  rw [hobj, json_run_append, c1, Option.bind, json_run_append,
    json_run_escape_json false r.1 h1, Option.bind, json_run_append, c2, Option.bind,
    json_run_append, json_run_escape_json false r.2.1 h2, Option.bind, json_run_append, c3,
    Option.bind, json_run_append, json_run_escape_json false r.2.2 h3, Option.bind, c4]

theorem json_run_objects (st : JsonState) (r : Record) (rs : List Record)
    (hst : st = JsonState.array_open ∨ st = JsonState.array_next)
    (h : ∀ x ∈ r :: rs, spec_json_safe x.1 ∧ spec_json_safe x.2.1 ∧ spec_json_safe x.2.2) :
    spec_json_run st (spec_json_objects (r :: rs)) = some JsonState.array_after := by
  induction rs generalizing st r with
  | nil =>
    have hr := h r (by simp)
    have hobj := json_run_object st r hst hr.1 hr.2.1 hr.2.2
    simp only [spec_json_objects]
    rw [json_run_append, hobj]
    rfl
  | cons r' rs' ih =>
    have hr := h r (by simp)
    have hobj := json_run_object st r hst hr.1 hr.2.1 hr.2.2
    have hrest := ih JsonState.array_next r' (Or.inr rfl) (fun x hx => h x (by simp [hx]))
    simp only [spec_json_objects]
    rw [json_run_append, json_run_append, hobj]
    simp only [Option.bind]
    have hsep : spec_json_run JsonState.array_after ",\n".toList
        = some JsonState.array_next := by decide
    rw [hsep]
    exact hrest

/-- C6 as stated fails: a record whose content is free of control
characters, but whose path has the control character U+0001 in a directory
name, gives a text the JSON grammar rejects. -/
theorem to_json_valid_counterexample :
    spec_json_safe "x".toList ∧
    ¬ spec_json_valid
      (to_json [("/var/log/cups/\x01/access_log".toList, "".toList, "x".toList)]) := by
  decide

/-- C6 amended: for records whose path, date and content have, among control
characters, only the five that `escape_json` escapes, `to_json` is valid JSON:
the grammar of an array of objects with string members accepts it. -/
theorem to_json_valid (records : List Record)
    (h : ∀ r ∈ records, spec_json_safe r.1 ∧ spec_json_safe r.2.1 ∧ spec_json_safe r.2.2) :
    spec_json_valid (to_json records) := by
  unfold spec_json_valid
  rw [to_json_eq_spec, json_run_append, json_run_append]
  have hopen : spec_json_run JsonState.top "[\n".toList = some JsonState.array_open := by
    decide
  rw [hopen]
  simp only [Option.bind]
  cases records with
  | nil => decide
  | cons r rs =>
    rw [json_run_objects JsonState.array_open r rs (Or.inl rfl) h]
    decide

/-- C6 amended, on records with a quote, a backslash, a tab and a newline in
their fields, and on no record at all. -/
theorem to_json_valid_witness :
    spec_json_valid (to_json
      [("/var/log/cups/access_log".toList, "17/May/2025:17:41:16".toList,
          "[17/May/2025:17:41:16] \"GET\t/job\" C:\\spool\r".toList),
       ("/var/log/cups/a\nb/page_log".toList, "".toList, "".toList)]) ∧
    spec_json_valid (to_json []) :=
  ⟨to_json_valid
    [("/var/log/cups/access_log".toList, "17/May/2025:17:41:16".toList,
        "[17/May/2025:17:41:16] \"GET\t/job\" C:\\spool\r".toList),
     ("/var/log/cups/a\nb/page_log".toList, "".toList, "".toList)]
    (by decide),
   to_json_valid [] (by decide)⟩

/-! ## File selection -/

theorem collect_entry_skip (records : Option (List Record)) (e : DirEntry)
    (h : ¬ spec_is_log_file e) : collect_entry records e = records := by
  unfold collect_entry
  by_cases hreg : e.is_regular_file = true
  · have hfn : filename e.path ∉ log_names := fun q => h ⟨hreg, (mem_log_names_iff _).1 q⟩
    simp [hreg, hfn]
  · simp only [Bool.not_eq_true] at hreg
    simp [hreg]

theorem spec_records_filter (entries : List DirEntry) :
    spec_records (entries.filter (fun e => decide (spec_is_log_file e)))
      = spec_records entries := by
  induction entries with
  | nil => rfl
  | cons e es ih =>
    unfold spec_records at *
    by_cases h : spec_is_log_file e
    · simp [List.filter_cons, h, ih]
    · simp [List.filter_cons, h, ih]

theorem parse_cups_logs_returns (fs : FileSystem) (sysroot format : Str) :
    parse_cups_logs fs sysroot format
      = some (if fs.fs_exists (cups_root sysroot) = true
            ∧ fs.fs_is_directory (cups_root sysroot) = true
            ∧ spec_records (fs.recursive_directory_iterator (cups_root sysroot)) ≠ []
          then (if format = "json".toList
            then to_json (spec_records (fs.recursive_directory_iterator (cups_root sysroot)))
            else to_csv (spec_records (fs.recursive_directory_iterator (cups_root sysroot))))
          else []) := by
  unfold parse_cups_logs
  rw [collect_records_eq]
  by_cases hex : fs.fs_exists (cups_root sysroot) = true
  · by_cases hdir : fs.fs_is_directory (cups_root sysroot) = true
    · by_cases hrec : spec_records (fs.recursive_directory_iterator (cups_root sysroot)) = []
      · simp [hex, hdir, hrec]
      · simp [hex, hdir, hrec]
    · simp [hdir]
  · simp [hex]

/-- C11: an entry that is not a regular file named exactly `access_log`,
`error_log` or `page_log` leaves the records as they are, so two trees whose
selected files agree, in order, give the same record sequence and the same
output of `parse_cups_logs`. -/
theorem parse_cups_logs_selected_only (fs1 fs2 : FileSystem) (sysroot format : Str)
    (hex : fs1.fs_exists (cups_root sysroot) = fs2.fs_exists (cups_root sysroot))
    (hdir : fs1.fs_is_directory (cups_root sysroot) = fs2.fs_is_directory (cups_root sysroot))
    (hsel : (fs1.recursive_directory_iterator (cups_root sysroot)).filter
          (fun e => decide (spec_is_log_file e))
        = (fs2.recursive_directory_iterator (cups_root sysroot)).filter
          (fun e => decide (spec_is_log_file e))) :
    (∀ (records : Option (List Record)) (e : DirEntry),
        ¬ (e.is_regular_file = true ∧ (filename e.path = "access_log".toList ∨
            filename e.path = "error_log".toList ∨ filename e.path = "page_log".toList)) →
        collect_entry records e = records) ∧
    collect_records (fs1.recursive_directory_iterator (cups_root sysroot))
      = collect_records (fs2.recursive_directory_iterator (cups_root sysroot)) ∧
    parse_cups_logs fs1 sysroot format = parse_cups_logs fs2 sysroot format := by
  have hrec : spec_records (fs1.recursive_directory_iterator (cups_root sysroot))
      = spec_records (fs2.recursive_directory_iterator (cups_root sysroot)) := by
    rw [← spec_records_filter (fs1.recursive_directory_iterator (cups_root sysroot)), hsel,
      spec_records_filter]
  refine ⟨fun records e h => collect_entry_skip records e h, ?_, ?_⟩
  · rw [collect_records_eq, collect_records_eq, hrec]
  · rw [parse_cups_logs_returns, parse_cups_logs_returns, hex, hdir, hrec]

/-- C11 on the sample tree: dropping its sub-directory and its rotated
`access_log.1` changes neither the records nor the CSV or JSON text. -/
theorem parse_cups_logs_selected_only_witness :
    parse_cups_logs sample_fs "/".toList "csv".toList
      = parse_cups_logs sample_fs_logs_only "/".toList "csv".toList ∧
    collect_records (sample_fs.recursive_directory_iterator (cups_root "/".toList))
      = collect_records (sample_fs_logs_only.recursive_directory_iterator
          (cups_root "/".toList)) :=
  ⟨(parse_cups_logs_selected_only sample_fs sample_fs_logs_only "/".toList "csv".toList
      rfl rfl (by rfl)).2.2,
   (parse_cups_logs_selected_only sample_fs sample_fs_logs_only "/".toList "csv".toList
      rfl rfl (by rfl)).2.1⟩

/-! ## The exit code of `main` -/

theorem getD_append_head (pre : List Str) (a : Str) (tl : List Str) :
    (pre ++ a :: tl).getD pre.length [] = a := by
  rw [List.getD_eq_getElem?_getD, List.getElem?_append_right (le_refl _)]
  simp

theorem getD_append_second (pre : List Str) (a b : Str) (tl : List Str) :
    (pre ++ a :: b :: tl).getD (pre.length + 1) [] = b := by
  have h : pre ++ a :: b :: tl = (pre ++ [a]) ++ b :: tl := by simp
  have hl : pre.length + 1 = (pre ++ [a]).length := by simp
  rw [h, hl]
  exact getD_append_head (pre ++ [a]) b tl

theorem main_loop_eq (fuel : Nat) (pre rest : List Str) (sysroot fmt : Str)
    (sfmt : Option Str) (hfmt : fmt = sfmt.getD []) (hfuel : rest.length < fuel) :
    main_loop (pre ++ rest) fuel pre.length sysroot fmt
      = (match spec_scan_args rest sysroot sfmt with
        | none => ArgScan.rejected
        | some (r, f) => ArgScan.accepted r (f.getD [])) := by
  induction fuel generalizing pre rest sysroot fmt sfmt with
  | zero => omega
  | succ fuel ih =>
    unfold main_loop
    match rest with
    | [] =>
      simp [spec_scan_args, hfmt]
    | [arg] =>
      have hlt : pre.length < (pre ++ [arg]).length := by simp
      have hnot : ¬ (pre.length + 1 < (pre ++ [arg]).length) := by simp
      rw [if_pos hlt]
      simp only [getD_append_head, hnot, and_false, if_false]
      by_cases hw : arg = "csv".toList ∨ arg = "json".toList
      · rw [if_pos hw, spec_scan_args, if_pos hw]
        have h : main_loop (pre ++ [arg]) fuel (pre.length + 1) sysroot arg
            = ArgScan.accepted sysroot arg := by
          have := ih (pre ++ [arg]) [] sysroot arg (some arg) rfl
            (by simp at hfuel ⊢; omega)
          simpa [spec_scan_args] using this
        rw [h]
        rfl
      · rw [if_neg hw, spec_scan_args, if_neg hw]
    | arg :: value :: tl =>
      have hlt : pre.length < (pre ++ arg :: value :: tl).length := by simp
      have hlt2 : pre.length + 1 < (pre ++ arg :: value :: tl).length := by simp
      rw [if_pos hlt]
      simp only [getD_append_head, getD_append_second, hlt2, and_true]
      by_cases ho : arg = "-p".toList ∨ arg = "--path".toList
      · rw [if_pos ho, spec_scan_args, if_pos ho]
        have h := ih (pre ++ [arg, value]) tl value fmt sfmt hfmt
          (by simp at hfuel ⊢; omega)
        have hl : (pre ++ [arg, value]).length = pre.length + 1 + 1 := by simp
        have ha : pre ++ [arg, value] ++ tl = pre ++ arg :: value :: tl := by simp
        rw [hl, ha] at h
        exact h
      · rw [if_neg ho]
        by_cases hw : arg = "csv".toList ∨ arg = "json".toList
        · rw [if_pos hw, spec_scan_args, if_neg ho, if_pos hw]
          have h := ih (pre ++ [arg]) (value :: tl) sysroot arg (some arg) rfl
            (by simp at hfuel ⊢; omega)
          have hl : (pre ++ [arg]).length = pre.length + 1 := by simp
          have ha : pre ++ [arg] ++ value :: tl = pre ++ arg :: value :: tl := by simp
          rw [hl, ha] at h
          exact h
        · rw [if_neg hw, spec_scan_args, if_neg ho, if_neg hw]

theorem spec_scan_args_format (n : Nat) (rest : List Str) (root : Str) (sfmt : Option Str)
    (r a : Str) (hn : rest.length ≤ n)
    (hs : ∀ b, sfmt = some b → (b = "csv".toList ∨ b = "json".toList))
    (h : spec_scan_args rest root sfmt = some (r, some a)) :
    a = "csv".toList ∨ a = "json".toList := by
  induction n generalizing rest root sfmt with
  | zero =>
    have hnil : rest = [] := List.length_eq_zero.1 (by omega)
    subst hnil
    rw [spec_scan_args] at h
    have : sfmt = some a := by
      injection h with h
      injection h
    exact hs a this
  | succ n ih =>
    match rest with
    | [] =>
      rw [spec_scan_args] at h
      have : sfmt = some a := by
        injection h with h
        injection h
      exact hs a this
    | [arg] =>
      rw [spec_scan_args] at h
      by_cases hw : arg = "csv".toList ∨ arg = "json".toList
      · rw [if_pos hw] at h
        have : arg = a := by
          injection h with h
          injection h with _ h
          injection h
        rw [← this]
        exact hw
      · rw [if_neg hw] at h
        cases h
    | arg :: value :: tl =>
      rw [spec_scan_args] at h
      by_cases ho : arg = "-p".toList ∨ arg = "--path".toList
      · rw [if_pos ho] at h
        exact ih tl value sfmt (by simp at hn ⊢; omega) hs h
      · rw [if_neg ho] at h
        by_cases hw : arg = "csv".toList ∨ arg = "json".toList
        · rw [if_pos hw] at h
          refine ih (value :: tl) root (some arg) (by simp at hn ⊢; omega) ?_ h
          intro b hb
          injection hb with hb
          rw [← hb]
          exact hw
        · rw [if_neg hw] at h
          cases h

/-- C12: `main` returns, and its exit code is 1 when the left-to-right scan
of the arguments meets one that is neither `csv`/`json` nor `-p`/`--path`
followed by another argument, else 2 when no `csv`/`json` was seen, else 3
when `parse_cups_logs` returned the empty string and 0 when it returned
text. -/
theorem main_exit_code (fs : FileSystem) (argv : List Str) :
    main fs argv = some (spec_exit_code (argv.drop 1)
      (fun root fmt => (parse_cups_logs fs root fmt).getD [])) := by
  unfold main spec_exit_code
  match argv with
  | [] => rfl
  | prog :: args =>
    have hloop := main_loop_eq (args.length + 1 + 1) [prog] args "/".toList [] none rfl
      (by omega)
    have hargv : [prog] ++ args = prog :: args := rfl
    have hlen : (prog :: args).length + 1 = args.length + 1 + 1 := by simp
    have hone : ([prog] : List Str).length = 1 := rfl
    rw [hargv, hone] at hloop
    rw [hlen, hloop, List.drop_one, List.tail_cons]
    cases hscan : spec_scan_args args "/".toList none with
    | none => rfl
    | some res =>
      obtain ⟨root, f⟩ := res
      cases f with
      | none => rfl
      | some a =>
        have ha : a = "csv".toList ∨ a = "json".toList :=
          spec_scan_args_format args.length args "/".toList none root a (le_refl _)
            (fun b hb => by cases hb) hscan
        have hne : a ≠ [] := by
          rcases ha with e | e <;> rw [e] <;> decide
        simp only [Option.getD_some, if_neg hne]
        obtain ⟨out, hp⟩ : ∃ out, parse_cups_logs fs root a = some out :=
          ⟨_, parse_cups_logs_returns fs root a⟩
        simp only [hp, Option.getD_some]
        by_cases ho : out = []
        · simp [ho]
        · simp [ho]

/-- C12, spec scenario 1 and the other exits: an absent cups directory with
a valid format gives 3, the sample tree gives 0, no format gives 2 (also
when `csv` is taken as the value of `-p`), an unknown word or a trailing
`--path` gives 1. -/
theorem main_exit_code_witness :
    main absent_fs ["cupser".toList, "csv".toList] = some 3 ∧
    main sample_fs ["cupser".toList, "json".toList, "-p".toList, "/".toList] = some 0 ∧
    main sample_fs ["cupser".toList, "-p".toList, "/tmp".toList, "csv".toList] = some 3 ∧
    main sample_fs ["cupser".toList] = some 2 ∧
    main sample_fs ["cupser".toList, "-p".toList, "csv".toList] = some 2 ∧
    main sample_fs ["cupser".toList, "xml".toList, "csv".toList] = some 1 ∧
    main sample_fs ["cupser".toList, "csv".toList, "--path".toList] = some 1 :=
  ⟨(main_exit_code absent_fs ["cupser".toList, "csv".toList]).trans (by decide),
   (main_exit_code sample_fs
      ["cupser".toList, "json".toList, "-p".toList, "/".toList]).trans (by decide),
   (main_exit_code sample_fs
      ["cupser".toList, "-p".toList, "/tmp".toList, "csv".toList]).trans (by decide),
   (main_exit_code sample_fs ["cupser".toList]).trans (by decide),
   (main_exit_code sample_fs ["cupser".toList, "-p".toList, "csv".toList]).trans (by decide),
   (main_exit_code sample_fs ["cupser".toList, "xml".toList, "csv".toList]).trans (by decide),
   (main_exit_code sample_fs
      ["cupser".toList, "csv".toList, "--path".toList]).trans (by decide)⟩

/-! ## Dates are parts of their lines -/

theorem find_loop_get (c : Char) (s : Str) (i k : Nat) (h : find_loop c s i = some k) :
    s.get? (k - i) = some c := by
  induction s generalizing i with
  | nil => cases h
  | cons x xs ih =>
    unfold find_loop at h
    by_cases hx : x = c
    · rw [if_pos hx] at h
      cases h
      simp [hx]
    · rw [if_neg hx] at h
      have hb := find_loop_bound c xs (i + 1) k h
      have := ih (i + 1) h
      have hk : k - i = (k - (i + 1)) + 1 := by omega
      rw [hk]
      simpa using this

theorem find_some (s : Str) (c : Char) (pos k : Nat) (h : find s c pos = some k) :
    pos ≤ k ∧ k < s.length ∧ s.get? k = some c := by
  unfold find at h
  have hb := find_loop_bound c (s.drop pos) pos k h
  have hg := find_loop_get c (s.drop pos) pos k h
  have hlen : (s.drop pos).length = s.length - pos := List.length_drop pos s
  have hk : pos + (k - pos) = k := by omega
  refine ⟨hb.1, by omega, ?_⟩
  have : (s.drop pos).get? (k - pos) = s.get? (pos + (k - pos)) := by
    simp [List.getElem?_drop]
  rw [this, hk] at hg
  exact hg

theorem bracket_positions (line : Str) (s e : Nat) (hs : find line '[' 0 = some s)
    (he : find line ']' s = some e) : s + 1 ≤ e ∧ e < line.length := by
  obtain ⟨_, _, hgs⟩ := find_some line '[' 0 s hs
  obtain ⟨hse, hel, hge⟩ := find_some line ']' s e he
  refine ⟨?_, hel⟩
  by_contra hlt
  have heq : e = s := by omega
  rw [heq, hgs] at hge
  exact absurd hge (by decide)

theorem bracket_date_infix (line d : Str) (h : bracket_date line = some d) : d <:+: line := by
  unfold bracket_date at h
  simp only [] at h
  split at h
  · unfold substr at h
    split at h
    · cases h
    · have hd := Option.some.inj h
      rw [← hd]
      exact (List.take_prefix _ _).isInfix.trans (List.drop_suffix _ _).isInfix
  · have hd := Option.some.inj h
    rw [← hd]
    exact List.nil_infix

theorem page_date_infix (line d : Str) (h : page_date line = some d) : d <:+: line := by
  rw [page_date_eq] at h
  have hd := Option.some.inj h
  rw [← hd]
  split
  · exact (List.take_prefix _ _).isInfix
  · exact List.nil_infix

theorem extract_date_infix (file line d : Str) (h : extract_date file line = some d) :
    d <:+: line := by
  unfold extract_date at h
  simp only [] at h
  split at h
  · exact bracket_date_infix line d h
  · split at h
    · exact bracket_date_infix line d h
    · split at h
      · exact page_date_infix line d h
      · have hd := Option.some.inj h
        rw [← hd]
        exact List.nil_infix

theorem mem_spec_records (entries : List DirEntry) (r : Record) (h : r ∈ spec_records entries) :
    ∃ e ∈ entries, spec_is_log_file e ∧ ∃ line ∈ read_lines e.content,
      r = spec_record e.path line := by
  unfold spec_records at h
  rw [List.mem_flatMap] at h
  obtain ⟨e, he, hr⟩ := h
  by_cases hsel : spec_is_log_file e
  · rw [if_pos hsel, List.mem_map] at hr
    obtain ⟨line, hl, hrec⟩ := hr
    exact ⟨e, he, hsel, line, hl, hrec.symm⟩
  · rw [if_neg hsel] at hr
    cases hr

/-- C13: for every path and line `extract_date` returns a contiguous part of
the line, so a date no longer than the line; and every record the collector
builds holds the path of a selected file, one of its lines unchanged as
content, and as date the date extracted from that line, a contiguous part of
the content. -/
theorem extract_date_substring (file line : Str) (entries : List DirEntry) :
    (∃ d, extract_date file line = some d ∧ d <:+: line ∧ d.length ≤ line.length) ∧
    (∃ records, collect_records entries = some records ∧
      ∀ r ∈ records,
        (∃ e ∈ entries, spec_is_log_file e ∧ r.1 = e.path ∧ r.2.2 ∈ read_lines e.content ∧
          extract_date e.path r.2.2 = some r.2.1) ∧
        r.2.1 <:+: r.2.2 ∧ r.2.1.length ≤ r.2.2.length) := by
  constructor
  · obtain ⟨d, hd⟩ := extract_date_returns file line
    have hin := extract_date_infix file line d hd
    exact ⟨d, hd, hin, hin.length_le⟩
  · refine ⟨spec_records entries, collect_records_eq entries, ?_⟩
    intro r hr
    obtain ⟨e, he, hsel, l, hl, hrec⟩ := mem_spec_records entries r hr
    obtain ⟨d, hd⟩ := extract_date_returns e.path l
    have hin := extract_date_infix e.path l d hd
    have h1 : r.1 = e.path := by rw [hrec]; rfl
    have h2 : r.2.2 = l := by rw [hrec]; rfl
    have h3 : r.2.1 = d := by rw [hrec]; simp [spec_record, hd]
    rw [h2, h3]
    exact ⟨⟨e, he, hsel, h1, hl, hd⟩, hin, hin.length_le⟩

/-- C14: on every line, `extract_date` for a file named `error_log` returns
what it returns for a file named `access_log`. -/
theorem extract_date_error_log_eq (file1 file2 line : Str)
    (h1 : filename file1 = "error_log".toList) (h2 : filename file2 = "access_log".toList) :
    extract_date file1 line = extract_date file2 line := by
  have hne : ¬ ("error_log".toList = "access_log".toList) := by decide
  have e1 : extract_date file1 line = bracket_date line := by
    unfold extract_date
    simp only [h1, if_neg hne, if_true]
  have e2 : extract_date file2 line = bracket_date line := by
    unfold extract_date
    simp only [h2, if_true]
  rw [e1, e2]

/-- C14 on one line of two files in different directories. -/
theorem extract_date_error_log_eq_witness :
    extract_date "/var/log/cups/error_log".toList "E [17/May/2025:17:41:16] failed".toList
      = extract_date "/var/log/cups/old/access_log".toList
          "E [17/May/2025:17:41:16] failed".toList :=
  extract_date_error_log_eq "/var/log/cups/error_log".toList
    "/var/log/cups/old/access_log".toList "E [17/May/2025:17:41:16] failed".toList
    (by decide) (by decide)

/-! ## Date extraction stays in range -/

theorem size_arith_exact (s e : Nat) (hse : s + 1 ≤ e) (he : e < SIZE_WIDTH) :
    size_add s 1 = s + 1 ∧ size_sub (size_sub e s) 1 = e - s - 1 := by
  constructor
  · unfold size_add
    exact Nat.mod_eq_of_lt (by omega)
  · unfold size_sub
    have a : s % SIZE_WIDTH = s := Nat.mod_eq_of_lt (by omega)
    have b : 1 % SIZE_WIDTH = 1 := Nat.mod_eq_of_lt (by omega)
    rw [a, b]
    have c : (e + SIZE_WIDTH - s) % SIZE_WIDTH = e - s := by
      have : e + SIZE_WIDTH - s = (e - s) + SIZE_WIDTH := by omega
      rw [this, Nat.add_mod_right]
      exact Nat.mod_eq_of_lt (by omega)
    rw [c]
    have : e - s + SIZE_WIDTH - 1 = (e - s - 1) + SIZE_WIDTH := by omega
    rw [this, Nat.add_mod_right]
    exact Nat.mod_eq_of_lt (by omega)

theorem char_at_is_some (line : Str) (i : Nat) (c : Char) (h : i < line.length) :
    char_at_is line i c ≠ none := by
  unfold char_at_is
  rw [List.get?_eq_get h]
  simp

theorem page_format_ok_some (line : Str) (h : 19 ≤ line.length) :
    page_format_ok line ≠ none := by
  intro hn
  have hp := page_date_eq line
  unfold page_date at hp
  rw [if_pos h, hn] at hp
  cases hp

/-- C15: `extract_date` returns a string for every path and line. In the
`page_log` branch the indices 4, 7, 10, 13 and 16 are only read when they are
below the line length; in the bracket branch the start `[` index plus one is
at most the line length, it is at most the index of `]`, so the length
`end - start - 1` does not wrap, and `substr` does not throw. -/
theorem extract_date_never_fails (file line : Str) :
    (∃ d, extract_date file line = some d) ∧
    (19 ≤ line.length →
      (∀ i ∈ [4, 7, 10, 13, 16], i < line.length ∧ ∀ c, char_at_is line i c ≠ none) ∧
      page_format_ok line ≠ none) ∧
    (¬ (19 ≤ line.length) → page_date line = some []) ∧
    (∀ s, find line '[' 0 = some s → s + 1 ≤ line.length ∧ size_add s 1 ≤ line.length) ∧
    (∀ s e, find line '[' 0 = some s → find line ']' s = some e →
      s + 1 ≤ e ∧ e < line.length ∧ substr line (s + 1) (e - s - 1) ≠ none ∧
      (line.length < SIZE_WIDTH →
        size_add s 1 = s + 1 ∧ size_sub (size_sub e s) 1 = e - s - 1)) := by
  refine ⟨extract_date_returns file line, ?_, ?_, ?_, ?_⟩
  · intro h
    refine ⟨?_, page_format_ok_some line h⟩
    intro i hi
    have hlt : i < line.length := by
      simp only [List.mem_cons, List.mem_singleton, List.not_mem_nil, or_false] at hi
      omega
    exact ⟨hlt, fun c => char_at_is_some line i c hlt⟩
  · intro h
    unfold page_date
    rw [if_neg h]
  · intro s hs
    have hlt : s < line.length := find_zero_bound line '[' s hs
    have hle : size_add s 1 ≤ s + 1 := Nat.mod_le _ _
    omega
  · intro s e hs he
    obtain ⟨hse, hel⟩ := bracket_positions line s e hs he
    refine ⟨hse, hel, ?_, ?_⟩
    · unfold substr
      rw [if_neg (by omega)]
      simp
    · intro hlen
      exact size_arith_exact s e hse (by omega)

/-- C15 on the edge cases: the empty line, a line shorter than 19
characters, `[` as last character, a `]` only before the first `[`, and
`[]` all give the empty date. -/
theorem extract_date_never_fails_witness :
    (∃ d, extract_date "/var/log/cups/access_log".toList "x[".toList = some d) ∧
    extract_date "/var/log/cups/access_log".toList "".toList = some [] ∧
    extract_date "/var/log/cups/page_log".toList "".toList = some [] ∧
    extract_date "/var/log/cups/page_log".toList "2025-05-01 10:59".toList = some [] ∧
    extract_date "/var/log/cups/error_log".toList "x[".toList = some [] ∧
    extract_date "/var/log/cups/error_log".toList "a]b[c".toList = some [] ∧
    extract_date "/var/log/cups/access_log".toList "[]".toList = some [] :=
  ⟨(extract_date_never_fails "/var/log/cups/access_log".toList "x[".toList).1,
   by decide, by decide, by decide, by decide, by decide, by decide⟩

/-! ## Order of the records, reachable branches, format selection -/

/-- C16: the collector returns the concatenation, over the entries in
traversal order, of the records of each selected file, one record (path,
extracted date, line) per line in line order; so the records of a walk made
of two parts are those of the first part followed by those of the second,
nothing merged, dropped or moved. -/
theorem collect_records_order (entries : List DirEntry) :
    (∃ records, collect_records entries = some records ∧
      records = entries.flatMap (fun e =>
        if spec_is_log_file e then
          (read_lines e.content).map
            (fun line => (e.path, (extract_date e.path line).getD [], line))
        else [])) ∧
    (∀ (e : DirEntry) (line : Str), ∃ d, extract_date e.path line = some d) ∧
    (∀ a b : List DirEntry, ∃ ra rb, collect_records a = some ra ∧
      collect_records b = some rb ∧ collect_records (a ++ b) = some (ra ++ rb)) := by
  refine ⟨⟨spec_records entries, collect_records_eq entries, rfl⟩, ?_, ?_⟩
  · intro e line
    exact extract_date_returns e.path line
  · intro a b
    refine ⟨spec_records a, spec_records b, collect_records_eq a, collect_records_eq b, ?_⟩
    rw [collect_records_eq]
    unfold spec_records
    rw [List.flatMap_append]

/-- C16 on the sample tree: the two lines of its `access_log` give two
records in line order, and nothing else does. -/
theorem collect_records_order_witness :
    collect_records (sample_fs.recursive_directory_iterator "/var/log/cups".toList)
      = some [("/var/log/cups/access_log".toList, "17/May/2025:17:41:16".toList,
                "[17/May/2025:17:41:16] GET /job".toList),
              ("/var/log/cups/access_log".toList, "".toList, "no date here".toList)] := by
  obtain ⟨records, h, heq⟩ := (collect_records_order
    (sample_fs.recursive_directory_iterator "/var/log/cups".toList)).1
  rw [h, heq]
  decide

theorem bracket_or_page_of_selected (path line : Str) :
    ((filename path = "access_log".toList ∨ filename path = "error_log".toList) →
      extract_date path line = bracket_date line) ∧
    (filename path = "page_log".toList → extract_date path line = page_date line) := by
  have n1 : ¬ ("error_log".toList = "access_log".toList) := by decide
  have n2 : ¬ ("page_log".toList = "access_log".toList) := by decide
  have n3 : ¬ ("page_log".toList = "error_log".toList) := by decide
  constructor
  · intro hb
    unfold extract_date
    rcases hb with e | e
    · simp only [e, if_true]
    · simp only [e, if_neg n1, if_true]
  · intro e
    unfold extract_date
    simp only [e, if_neg n2, if_neg n3, if_true]

/-- C17: every record the collector builds carries a path whose basename,
computed as `extract_date` computes it, is `access_log`, `error_log` or
`page_log`, and its date is the result of the bracket rule or of the
`page_log` rule on its content; for any other basename `extract_date`
returns the empty string whatever the line. -/
theorem extract_date_default_unreachable (entries : List DirEntry) :
    (∃ records, collect_records entries = some records ∧
      ∀ r ∈ records,
        (filename r.1 = "access_log".toList ∨ filename r.1 = "error_log".toList ∨
          filename r.1 = "page_log".toList) ∧
        ((filename r.1 = "access_log".toList ∨ filename r.1 = "error_log".toList) →
          bracket_date r.2.2 = some r.2.1) ∧
        (filename r.1 = "page_log".toList → page_date r.2.2 = some r.2.1)) ∧
    (∀ file line : Str,
      ¬ (filename file = "access_log".toList ∨ filename file = "error_log".toList ∨
          filename file = "page_log".toList) →
      extract_date file line = some []) := by
  constructor
  · refine ⟨spec_records entries, collect_records_eq entries, ?_⟩
    intro r hr
    obtain ⟨e, _, hsel, l, _, hrec⟩ := mem_spec_records entries r hr
    obtain ⟨d, hd⟩ := extract_date_returns e.path l
    have h1 : r.1 = e.path := by rw [hrec]; rfl
    have h2 : r.2.2 = l := by rw [hrec]; rfl
    have h3 : r.2.1 = d := by rw [hrec]; simp [spec_record, hd]
    have hb := bracket_or_page_of_selected e.path l
    rw [h1, h2, h3, ← hd]
    exact ⟨hsel.2, fun q => (hb.1 q).symm, fun q => (hb.2 q).symm⟩
  · intro file line h
    have h1 : ¬ filename file = "access_log".toList := fun q => h (Or.inl q)
    have h2 : ¬ filename file = "error_log".toList := fun q => h (Or.inr (Or.inl q))
    have h3 : ¬ filename file = "page_log".toList := fun q => h (Or.inr (Or.inr q))
    unfold extract_date
    simp only [if_neg h1, if_neg h2, if_neg h3]

/-- C17 on a rotated log: `access_log.1` is not one of the three names, so
its bracketed line gets the empty date. -/
theorem extract_date_default_unreachable_witness :
    extract_date "/var/log/cups/access_log.1".toList "[17/May/2025:17:41:16] x".toList
      = some [] :=
  (extract_date_default_unreachable []).2 "/var/log/cups/access_log.1".toList
    "[17/May/2025:17:41:16] x".toList (by decide)

/-- C18: with the cups directory present and at least one record collected,
`parse_cups_logs` returns `to_json` of the records when the format is exactly
`json` and `to_csv` of the records for every other format string. -/
theorem parse_cups_logs_format (fs : FileSystem) (sysroot format : Str)
    (records : List Record)
    (hex : fs.fs_exists (cups_root sysroot) = true)
    (hdir : fs.fs_is_directory (cups_root sysroot) = true)
    (hrec : collect_records (fs.recursive_directory_iterator (cups_root sysroot))
      = some records)
    (hne : records ≠ []) :
    (format = "json".toList → parse_cups_logs fs sysroot format = some (to_json records)) ∧
    (format ≠ "json".toList → parse_cups_logs fs sysroot format = some (to_csv records)) := by
  unfold parse_cups_logs
  rw [hrec]
  simp only [hex, hdir, Bool.not_true, Bool.or_self, Bool.false_eq_true, if_false, if_neg hne]
  constructor
  · intro h
    rw [if_pos h]
  · intro h
    rw [if_neg h]

/-- C18 on the sample tree: `json` selects JSON; `csv`, `JSON`, the empty
string and `xml` all select CSV. -/
theorem parse_cups_logs_format_witness :
    ∃ records, records ≠ [] ∧
      parse_cups_logs sample_fs "/".toList "json".toList = some (to_json records) ∧
      parse_cups_logs sample_fs "/".toList "csv".toList = some (to_csv records) ∧
      parse_cups_logs sample_fs "/".toList "JSON".toList = some (to_csv records) ∧
      parse_cups_logs sample_fs "/".toList "".toList = some (to_csv records) ∧
      parse_cups_logs sample_fs "/".toList "xml".toList = some (to_csv records) :=
  ⟨[("/var/log/cups/access_log".toList, "17/May/2025:17:41:16".toList,
      "[17/May/2025:17:41:16] GET /job".toList),
    ("/var/log/cups/access_log".toList, "".toList, "no date here".toList)],
   by decide,
   (parse_cups_logs_format sample_fs "/".toList "json".toList _
      (by decide) (by decide) (by decide) (by decide)).1 rfl,
   (parse_cups_logs_format sample_fs "/".toList "csv".toList _
      (by decide) (by decide) (by decide) (by decide)).2 (by decide),
   (parse_cups_logs_format sample_fs "/".toList "JSON".toList _
      (by decide) (by decide) (by decide) (by decide)).2 (by decide),
   (parse_cups_logs_format sample_fs "/".toList "".toList _
      (by decide) (by decide) (by decide) (by decide)).2 (by decide),
   (parse_cups_logs_format sample_fs "/".toList "xml".toList _
      (by decide) (by decide) (by decide) (by decide)).2 (by decide)⟩

/-! ## Escaping loses nothing -/

theorem spec_double_quote_ne_nil (c : Char) : spec_double_quote c ≠ [] := by
  unfold spec_double_quote
  split <;> simp

theorem flatMap_double_quote_injective (s t : Str)
    (h : s.flatMap spec_double_quote = t.flatMap spec_double_quote) : s = t := by
  induction s generalizing t with
  | nil =>
    cases t with
    | nil => rfl
    | cons c cs =>
      rw [List.flatMap_nil, List.flatMap_cons] at h
      have := congrArg List.length h
      have hne := spec_double_quote_ne_nil c
      have hpos : 0 < (spec_double_quote c).length := List.length_pos.2 hne
      simp only [List.length_nil, List.length_append] at this
      omega
  | cons c cs ih =>
    cases t with
    | nil =>
      rw [List.flatMap_nil, List.flatMap_cons] at h
      have := congrArg List.length h
      have hne := spec_double_quote_ne_nil c
      have hpos : 0 < (spec_double_quote c).length := List.length_pos.2 hne
      simp only [List.length_nil, List.length_append] at this
      omega
    | cons c' cs' =>
      rw [List.flatMap_cons, List.flatMap_cons] at h
      unfold spec_double_quote at h
      by_cases hc : c = '"'
      · by_cases hc' : c' = '"'
        · rw [if_pos hc, if_pos hc'] at h
          have htl : cs.flatMap spec_double_quote = cs'.flatMap spec_double_quote := by
            simpa [spec_double_quote] using h
          rw [hc, hc', ih cs' htl]
        · rw [if_pos hc, if_neg hc'] at h
          have hhd : '"' = c' := by
            have := congrArg List.head? h
            simpa using this
          exact absurd hhd.symm hc'
      · by_cases hc' : c' = '"'
        · rw [if_neg hc, if_pos hc'] at h
          have hhd : c = '"' := by
            have := congrArg List.head? h
            simpa using this
          exact absurd hhd hc
        · rw [if_neg hc, if_neg hc'] at h
          have hcons : c :: cs.flatMap spec_double_quote
              = c' :: cs'.flatMap spec_double_quote := by
            simpa [spec_double_quote] using h
          have hhd : c = c' := (List.cons.inj hcons).1
          have htl := (List.cons.inj hcons).2
          rw [hhd, ih cs' htl]

theorem quoted_ne_unquoted (s t : Str) (ht : '"' ∉ t)
    (h : ['"'] ++ s.flatMap spec_double_quote ++ ['"'] = t) : False := by
  apply ht
  rw [← h]
  simp

/-- C19: `escape_csv` is injective on all strings: two fields with the same
escaped text are the same field. -/
theorem escape_csv_injective (s t : Str) (h : escape_csv s = escape_csv t) : s = t := by
  rw [escape_csv_eq_spec, escape_csv_eq_spec] at h
  unfold spec_csv_field at h
  by_cases hs : '"' ∈ s ∨ ',' ∈ s
  · by_cases ht : '"' ∈ t ∨ ',' ∈ t
    · rw [if_pos hs, if_pos ht] at h
      have h1 : s.flatMap spec_double_quote ++ ['"'] = t.flatMap spec_double_quote ++ ['"'] := by
        simpa using h
      exact flatMap_double_quote_injective s t (List.append_cancel_right h1)
    · rw [if_pos hs, if_neg ht] at h
      exact (quoted_ne_unquoted s t (fun q => ht (Or.inl q)) h).elim
  · by_cases ht : '"' ∈ t ∨ ',' ∈ t
    · rw [if_neg hs, if_pos ht] at h
      exact (quoted_ne_unquoted t s (fun q => hs (Or.inl q)) h.symm).elim
    · rw [if_neg hs, if_neg ht] at h
      exact h

/-- C19 on a field and its own quoted form: `a,b` and `"a,b"` are different
fields, so their escaped texts differ. -/
theorem escape_csv_injective_witness :
    escape_csv "a,b".toList ≠ escape_csv "\"a,b\"".toList ∧
    escape_csv "a\nb".toList = escape_csv "a\nb".toList :=
  ⟨fun h => absurd (escape_csv_injective "a,b".toList "\"a,b\"".toList h) (by decide),
   congrArg escape_csv (escape_csv_injective "a\nb".toList "a\nb".toList rfl)⟩

theorem json_unescape_escape_char (c : Char) (rest : Str) :
    spec_json_unescape (spec_json_escape c ++ rest) = c :: spec_json_unescape rest := by
  unfold spec_json_escape
  split
  · rename_i h
    rw [h]
    simp [spec_json_unescape, spec_json_denote]
  split
  · rename_i h
    rw [h]
    simp [spec_json_unescape, spec_json_denote]
  split
  · rename_i h
    rw [h]
    simp [spec_json_unescape, spec_json_denote]
  split
  · rename_i h
    rw [h]
    simp [spec_json_unescape, spec_json_denote]
  split
  · rename_i h
    rw [h]
    simp [spec_json_unescape, spec_json_denote]
  split
  · rename_i h
    rw [h]
    simp [spec_json_unescape, spec_json_denote]
  split
  · rename_i h
    rw [h]
    simp [spec_json_unescape, spec_json_denote]
  rename_i h1 h2 h3 h4 h5 h6 h7
  cases rest with
  | nil => simp [spec_json_unescape]
  | cons d r => simp [spec_json_unescape, h2]

/-- C20: decoding `escape_json s` left to right, a backslash and the
character after it giving the character the escape denotes and every other
character copied, returns `s`. -/
theorem escape_json_reversible (s : Str) : spec_json_unescape (escape_json s) = s := by
  rw [escape_json_eq_spec]
  induction s with
  | nil => rfl
  | cons c cs ih =>
    rw [List.flatMap_cons, json_unescape_escape_char, ih]

/-- C20 on a string holding each of the seven escaped characters. -/
theorem escape_json_reversible_witness :
    escape_json "a\"b\\c\x08\x0c\n\r\td".toList = "a\\\"b\\\\c\\b\\f\\n\\r\\td".toList ∧
    spec_json_unescape "a\\\"b\\\\c\\b\\f\\n\\r\\td".toList
      = "a\"b\\c\x08\x0c\n\r\td".toList :=
  ⟨by decide,
   (congrArg spec_json_unescape (by decide :
      "a\\\"b\\\\c\\b\\f\\n\\r\\td".toList = escape_json "a\"b\\c\x08\x0c\n\r\td".toList)).trans
     (escape_json_reversible "a\"b\\c\x08\x0c\n\r\td".toList)⟩

end CUPSer
